import Mathlib

/-!
# go-flv: a shallow embedding of the FLV decoder

The development follows the three source files of the repository:
`decoder.go` (header decoder, tag-size framer, top-level `Decoder`),
`tag/decoder.go` (tag dispatcher and the audio / video / script sub-decoders)
and `pool/pool.go`.

Modelling conventions.

* A byte is a `Fin 256`; an `io.Reader` is the list of bytes that are still
  unread (the cursor is the head of the list).  Every function that reads
  returns the list that is left, so "consumed `n` bytes" is `r' = r.drop n`.
* Fixed-width unsigned integers are natural numbers; `int32` is an integer
  obtained by the explicit two's-complement reinterpretation `int32`.
* A Go function returning `error` returns a `Result`: `ok`, `error e`, or
  `panic` when the body hits a run-time panic (slice index out of range) and
  never reaches a `return`.
* Out-parameters (`*flvTag`, `*audioData`, ...) are passed in and returned.
-/

namespace Flv

/-- One octet of the stream. -/
abbrev Byte := Fin 256

/-- Error values that the decoder can return. -/
inductive Err where
  /-- The value `io.EOF`. -/
  | EOF
  /-- The value `io.ErrUnexpectedEOF`. -/
  | ErrUnexpectedEOF
  /-- The value `fmt.Errorf("Signature is not matched(FLV): %+v", signature)`. -/
  | signatureNotMatched (signature : List Byte)
  /-- The value `fmt.Errorf("Initial tag size should be 0: Actual = %d", n)`. -/
  | initialTagSize (actual : Nat)
  /-- The value `fmt.Errorf("Unsupported tag type: %+v", tagType)`. -/
  | unsupportedTagType (tagType : Nat)
  /-- The value `errors.Wrap(cause, msg)`. -/
  | wrap (cause : Err) (msg : String)
  /-- Any other error value produced by the external AMF0 decoder. -/
  | amf0 (code : Nat)
  deriving DecidableEq, Repr

/-- Outcome of a call: a normal return with a value, a normal return with a
non-nil error, or a run-time panic. -/
inductive Result (α : Type) where
  | ok (a : α)
  | error (e : Err)
  | panic
  deriving DecidableEq, Repr

/-! ## Readers -/

/-- `io.CopyN(buffer, r, n)` into an empty buffer, on a plain stream: when `n`
bytes are available they are moved to the buffer; otherwise everything that is
left is consumed and the error is `io.EOF`. -/
def CopyN (r : List Byte) (n : Nat) : Except Err (List Byte) × List Byte :=
  if n ≤ r.length then (.ok (r.take n), r.drop n) else (.error .EOF, [])

/-- An `io.LimitedReader`: `R` is the underlying stream and `N` the number of
bytes that may still be read from it. -/
structure LimitedReader where
  R : List Byte
  N : Nat
  deriving DecidableEq, Repr

namespace LimitedReader

/-- The bytes the limited reader yields when it is read to its end. -/
def payload (l : LimitedReader) : List Byte := l.R.take l.N

/-- State of the limited reader after `k` bytes were read through it; a
limited reader never hands out more than `N` bytes. -/
def advance (l : LimitedReader) (k : Nat) : LimitedReader :=
  { R := l.R.drop (min k l.N), N := l.N - k }

/-- `io.CopyN(buffer, l, n)` into an empty buffer, through a limited reader. -/
def CopyN (l : LimitedReader) (n : Nat) : Except Err (List Byte) × LimitedReader :=
  if n ≤ l.payload.length then (.ok (l.payload.take n), l.advance n)
  else (.error .EOF, l.advance l.payload.length)

/-- `io.Copy(ioutil.Discard, l)`: read the limited reader to its end. -/
def discard (l : LimitedReader) : LimitedReader := l.advance l.payload.length

end LimitedReader

/-- `binary.BigEndian.Uint32(b)`: indexes `b[3]`, so it panics (`none`) on a
slice shorter than 4 bytes. -/
def Uint32 (b : List Byte) : Option Nat :=
  match b with
  | b0 :: b1 :: b2 :: b3 :: _ =>
    some (b3.val ||| (b2.val <<< 8) ||| (b1.val <<< 16) ||| (b0.val <<< 24))
  | _ => none

/-- The conversion `int32(x)` of a `uint32` value (two's complement). -/
def int32 (x : Nat) : Int :=
  if x % 2 ^ 32 < 2 ^ 31 then (x % 2 ^ 32 : Nat) else ((x % 2 ^ 32 : Nat) : Int) - 2 ^ 32

/-! ## Constants and record types declared outside the three source files -/

/-- Modelled from the spec: `HeaderLength` is declared in a file that is not
among the sources; the header is "a fixed number of bytes (9 ...)". -/
def HeaderLength : Nat := 9

/-- Modelled from the spec: `HeaderSignature` is declared in a file that is not
among the sources; the required 3-byte signature is `'F','L','V'`. -/
def HeaderSignature : List Byte := [0x46, 0x4c, 0x56]

/-- Modelled from the spec: the `Flags` bit for "has audio" is declared in a
file that is not among the sources; "bit2=audio present". -/
def FlagsAudio : Nat := 0x04

/-- Modelled from the spec: the `Flags` bit for "has video" is declared in a
file that is not among the sources; "bit0=video present". -/
def FlagsVideo : Nat := 0x01

/-- Modelled from the spec: the tag type codes are declared in a file that is
not among the sources; the FLV code of an audio tag is 8. -/
def TagTypeAudio : Nat := 8

/-- Modelled from the spec: the FLV code of a video tag is 9. -/
def TagTypeVideo : Nat := 9

/-- Modelled from the spec: the FLV code of a script-data tag is 18. -/
def TagTypeScriptData : Nat := 18

/-- Modelled from the spec: the "compressed-AAC format code" is declared in a
file that is not among the sources; in FLV it is 10. -/
def SoundFormatAAC : Nat := 10

/-- Modelled from the spec: the "compressed-AVC codec code" is declared in a
file that is not among the sources; in FLV it is 7. -/
def CodecIDAVC : Nat := 7

/-- The struct `Header`. -/
structure Header where
  Version : Nat
  Flags : Nat
  DataOffset : Nat
  deriving DecidableEq, Repr

/-- The has-audio flag of a header. -/
def Header.hasAudio (h : Header) : Bool := h.Flags &&& FlagsAudio != 0

/-- The has-video flag of a header. -/
def Header.hasVideo (h : Header) : Bool := h.Flags &&& FlagsVideo != 0

/-- The struct `AACAudioData`.  `Data` aliases the reader the packet was decoded
from: `none` is the nil reader, `some n` is that reader with `n` bytes still
to be handed out from the underlying stream. -/
structure AACAudioData where
  AACPacketType : Nat := 0
  Data : Option Nat := none
  deriving DecidableEq, Repr

/-- The struct `AudioData`; `Data` as in `AACAudioData`. -/
structure AudioData where
  SoundFormat : Nat := 0
  SoundRate : Nat := 0
  SoundSize : Nat := 0
  SoundType : Nat := 0
  AACPacketType : Nat := 0
  Data : Option Nat := none
  deriving DecidableEq, Repr

/-- The struct `AVCVideoPacket`; `Data` as in `AACAudioData`. -/
structure AVCVideoPacket where
  AVCPacketType : Nat := 0
  CompositionTime : Int := 0
  Data : Option Nat := none
  deriving DecidableEq, Repr

/-- The struct `VideoData`; `Data` as in `AACAudioData`. -/
structure VideoData where
  FrameType : Nat := 0
  CodecID : Nat := 0
  AVCPacketType : Nat := 0
  CompositionTime : Int := 0
  Data : Option Nat := none
  deriving DecidableEq, Repr

/-- The struct `ScriptData`: the map `Objects` as an association list with at
most one entry per name. -/
structure ScriptData (V : Type) where
  Objects : List (String × V) := []
  deriving DecidableEq, Repr

/-- The dynamic content of `FlvTag.Data`. -/
inductive TagData (V : Type) where
  | nil
  | audio (v : AudioData)
  | video (v : VideoData)
  | script (v : ScriptData V)
  deriving DecidableEq, Repr

/-- The struct `FlvTag`. -/
structure FlvTag (V : Type) where
  TagType : Nat := 0
  Timestamp : Nat := 0
  StreamID : Nat := 0
  Data : TagData V := .nil
  deriving DecidableEq, Repr

/-! ## The external AMF0 decoder -/

/-- Result of one `dec.Decode(&x)` of the external decoder on the bounded
payload that is left: a decoded item or an error value (`Err.EOF` is
`io.EOF`), with the number of bytes it read. -/
inductive AmfResult (α : Type) where
  | item (a : α) (consumed : Nat)
  | error (e : Err) (consumed : Nat)
  deriving DecidableEq, Repr

/-- Modelled from the spec: the external generic value decoder
(`github.com/yutopp/go-amf0`), "given a positioned byte stream, decodes one
self-describing value ... and advances the stream past it".  A decoded name
has read at least one byte and no more than the payload holds. -/
structure Amf0 (V : Type) where
  decodeString : List Byte → AmfResult String
  decodeValue : List Byte → AmfResult V
  progress : ∀ p a k, decodeString p = .item a k → 0 < k ∧ k ≤ p.length

/-! ## tag/decoder.go -/

/-- The function `wrapEOF`. -/
def wrapEOF (err : Err) : Err :=
  if err = .EOF then .ErrUnexpectedEOF else err

/-- The function `DecodeAACAudioData`. -/
def DecodeAACAudioData (r : LimitedReader) (aacAudioData : AACAudioData) :
    Result Unit × LimitedReader × AACAudioData :=
  match r.CopyN 1 with
  | (.error err, r1) => (.error err, r1, aacAudioData)
  | (.ok buffer, r1) =>
    match buffer with
    | b0 :: _ =>
      let aacPacketType := b0.val
      (.ok (), r1, { AACPacketType := aacPacketType, Data := some r1.N })
    | [] => (.panic, r1, aacAudioData)

/-- The function `DecodeAudioData`.  In Go `&` and `>>` have the same
precedence and associate to the left, so `b & 0xf0 >> 4` is `(b & 0xf0) >> 4`. -/
def DecodeAudioData (r : LimitedReader) (audioData : AudioData) :
    Result Unit × LimitedReader × AudioData :=
  match r.CopyN 1 with
  | (.error err, r1) => (.error err, r1, audioData)
  | (.ok buffer, r1) =>
    match buffer with
    | b0 :: _ =>
      let soundFormat := (b0.val &&& 0xf0) >>> 4
      let soundRate := (b0.val &&& 0x0c) >>> 2
      let soundSize := (b0.val &&& 0x02) >>> 1
      let soundType := b0.val &&& 0x01
      let audioData1 : AudioData :=
        { SoundFormat := soundFormat, SoundRate := soundRate,
          SoundSize := soundSize, SoundType := soundType }
      if soundFormat = SoundFormatAAC then
        match DecodeAACAudioData r1 {} with
        | (.error err, r2, _) => (.error (wrapEOF err), r2, audioData1)
        | (.panic, r2, _) => (.panic, r2, audioData1)
        | (.ok (), r2, aacAudioData) =>
          (.ok (), r2, { audioData1 with
            AACPacketType := aacAudioData.AACPacketType, Data := aacAudioData.Data })
      else
        (.ok (), r1, { audioData1 with Data := some r1.N })
    | [] => (.panic, r1, audioData)

/-- The function `DecodeAVCVideoPacket`.  The scratch buffer holds the 4 bytes
just copied, so `buffer.Bytes()[1:]` is the 3-byte slice `buffer.drop 1`, which
is handed to `binary.BigEndian.Uint32`. -/
def DecodeAVCVideoPacket (r : LimitedReader) (avcVideoPacket : AVCVideoPacket) :
    Result Unit × LimitedReader × AVCVideoPacket :=
  match r.CopyN 4 with
  | (.error err, r1) => (.error err, r1, avcVideoPacket)
  | (.ok buffer, r1) =>
    match buffer.head?, Uint32 (buffer.drop 1) with
    | some b0, some u =>
      let avcPacketType := b0.val
      let compositionTime := int32 u >>> 8
      (.ok (), r1, { AVCPacketType := avcPacketType,
                     CompositionTime := compositionTime, Data := some r1.N })
    | _, _ => (.panic, r1, avcVideoPacket)

/-- The function `DecodeVideoData`. -/
def DecodeVideoData (r : LimitedReader) (videoData : VideoData) :
    Result Unit × LimitedReader × VideoData :=
  match r.CopyN 1 with
  | (.error err, r1) => (.error err, r1, videoData)
  | (.ok buffer, r1) =>
    match buffer with
    | b0 :: _ =>
      let frameType := (b0.val &&& 0xf0) >>> 4
      let codecID := b0.val &&& 0x0f
      let videoData1 : VideoData := { FrameType := frameType, CodecID := codecID }
      if codecID = CodecIDAVC then
        match DecodeAVCVideoPacket r1 {} with
        | (.error err, r2, _) => (.error (wrapEOF err), r2, videoData1)
        | (.panic, r2, _) => (.panic, r2, videoData1)
        | (.ok (), r2, avcVideoPacket) =>
          (.ok (), r2, { videoData1 with
            AVCPacketType := avcVideoPacket.AVCPacketType,
            CompositionTime := avcVideoPacket.CompositionTime,
            Data := avcVideoPacket.Data })
      else
        (.ok (), r1, { videoData1 with Data := some r1.N })
    | [] => (.panic, r1, videoData)

/-- The map assignment `kv[key] = value`. -/
def mapSet {V : Type} (kv : List (String × V)) (key : String) (value : V) :
    List (String × V) :=
  (key, value) :: kv.filter (fun e => e.1 != key)

/-- The `for` loop of `DecodeScriptData`, with the map `kv` built so far.  The
first argument bounds the number of passes; `DecodeScriptData` starts it above
the payload length, and every pass that goes round reads at least one byte
(`Amf0.progress`), so the bound is never reached. -/
def DecodeScriptData.loop {V : Type} (amf : Amf0 V) :
    Nat → LimitedReader → List (String × V) → Result (List (String × V)) × LimitedReader
  | 0, r, _ => (.error (.amf0 0), r)
  | fuel + 1, r, kv =>
    match amf.decodeString r.payload with
    | .error err n =>
      if err = .EOF then (.ok kv, r.advance n)
      else (.error (.wrap err "Failed to decode key"), r.advance n)
    | .item key n =>
      let r1 := r.advance n
      match amf.decodeValue r1.payload with
      | .error err m => (.error (.wrap err "Failed to decode value"), r1.advance m)
      | .item value m => DecodeScriptData.loop amf fuel (r1.advance m) (mapSet kv key value)

/-- The function `DecodeScriptData`. -/
def DecodeScriptData {V : Type} (amf : Amf0 V) (r : LimitedReader) (data : ScriptData V) :
    Result Unit × LimitedReader × ScriptData V :=
  match DecodeScriptData.loop amf (r.payload.length + 1) r [] with
  | (.ok kv, r1) => (.ok (), r1, { Objects := kv })
  | (.error err, r1) => (.error err, r1, data)
  | (.panic, r1) => (.panic, r1, data)

/-- The function `DecodeFlvTag`.  The deferred closure discards what is left of
the limited reader when the named result `err` is non-nil; on a panic `err`
is still nil. -/
def DecodeFlvTag {V : Type} (amf : Amf0 V) (r : List Byte) (flvTag : FlvTag V) :
    Result Unit × List Byte × FlvTag V :=
  match CopyN r 11 with
  | (.error err, r1) => (.error err, r1, flvTag)
  | (.ok buffer, r1) =>
    match buffer with
    | b0 :: b1 :: b2 :: b3 :: b4 :: b5 :: b6 :: b7 :: b8 :: b9 :: b10 :: _ =>
      let tagType := b0.val
      let dataSize := (b1.val <<< 16) ||| (b2.val <<< 8) ||| b3.val
      let timestamp := (b4.val <<< 16) ||| (b5.val <<< 8) ||| b6.val ||| (b7.val <<< 24)
      let streamID := (b8.val <<< 16) ||| (b9.val <<< 8) ||| b10.val
      let flvTag1 : FlvTag V :=
        { TagType := tagType, Timestamp := timestamp, StreamID := streamID }
      let lr : LimitedReader := { R := r1, N := dataSize }
      if tagType = TagTypeAudio then
        match DecodeAudioData lr {} with
        | (.error err, lr1, _) =>
          (.error (.wrap err "Failed to decode audio data"), lr1.discard.R, flvTag1)
        | (.panic, lr1, _) => (.panic, lr1.R, flvTag1)
        | (.ok (), lr1, v) => (.ok (), lr1.R, { flvTag1 with Data := .audio v })
      else if tagType = TagTypeVideo then
        match DecodeVideoData lr {} with
        | (.error err, lr1, _) =>
          (.error (.wrap err "Failed to decode video data"), lr1.discard.R, flvTag1)
        | (.panic, lr1, _) => (.panic, lr1.R, flvTag1)
        | (.ok (), lr1, v) => (.ok (), lr1.R, { flvTag1 with Data := .video v })
      else if tagType = TagTypeScriptData then
        match DecodeScriptData amf lr {} with
        | (.error err, lr1, _) =>
          (.error (.wrap err "Failed to decode script data"), lr1.discard.R, flvTag1)
        | (.panic, lr1, _) => (.panic, lr1.R, flvTag1)
        | (.ok (), lr1, v) => (.ok (), lr1.R, { flvTag1 with Data := .script v })
      else
        (.error (.unsupportedTagType tagType), lr.discard.R, flvTag1)
    | _ => (.panic, r1, flvTag)

/-! ## decoder.go -/

/-- The function `DecodeFlvHeader`. -/
def DecodeFlvHeader (r : List Byte) : Result Header × List Byte :=
  match CopyN r HeaderLength with
  | (.error err, r1) => (.error err, r1)
  | (.ok buffer, r1) =>
    let signature := buffer.take 3
    if signature ≠ HeaderSignature then (.error (.signatureNotMatched signature), r1)
    else
      match buffer.get? 3, buffer.get? 4, Uint32 ((buffer.take 9).drop 5) with
      | some version, some flags, some dataOffset =>
        let flagsAudio := (flags.val &&& 0x03) >>> 2
        let flagsVideo := flags.val &&& 0x01
        let header : Header := { Version := version.val, Flags := 0, DataOffset := dataOffset }
        let header := if flagsAudio ≠ 0 then { header with Flags := header.Flags ||| FlagsAudio }
                      else header
        let header := if flagsVideo ≠ 0 then { header with Flags := header.Flags ||| FlagsVideo }
                      else header
        (.ok header, r1)
      | _, _, _ => (.panic, r1)

/-- The struct `Decoder`. -/
structure Decoder where
  r : List Byte
  header : Header
  decodedOnce : Bool := false
  deriving DecidableEq, Repr

/-- The function `NewDecoder`; `io.CopyN(ioutil.Discard, r, offset)` skips
`offset` bytes. -/
def NewDecoder (r : List Byte) : Result Decoder × List Byte :=
  match DecodeFlvHeader r with
  | (.error err, r1) => (.error err, r1)
  | (.panic, r1) => (.panic, r1)
  | (.ok header, r1) =>
    if header.DataOffset > HeaderLength then
      let offset := header.DataOffset - HeaderLength
      match CopyN r1 offset with
      | (.error err, r2) => (.error err, r2)
      | (.ok _, r2) => (.ok { r := r2, header := header }, r2)
    else (.ok { r := r1, header := header }, r1)

/-- The method `Decoder.Header`. -/
def Decoder.Header (dec : Decoder) : Header := dec.header

/-- The method `Decoder.decodeTagSize`. -/
def Decoder.decodeTagSize (dec : Decoder) : Result Nat × Decoder :=
  match CopyN dec.r 4 with
  | (.error err, r1) => (.error err, { dec with r := r1 })
  | (.ok buffer, r1) =>
    match Uint32 buffer with
    | some v => (.ok v, { dec with r := r1 })
    | none => (.panic, { dec with r := r1 })

/-- The method `Decoder.skipTagSize`: discards up to 4 bytes. -/
def Decoder.skipTagSize (dec : Decoder) : Decoder :=
  { dec with r := ({ R := dec.r, N := 4 } : LimitedReader).discard.R }

/-- The code of `Decoder.Decode` from the label `body` on, entered with
`decodedOnce = true` (either it was true on entry of `Decode`, or the label
`tagSize` has just set it): decode a tag, then read the tag-size field that
follows; at that second pass through `tagSize` the test `!dec.decodedOnce`
is false and the method returns nil. -/
def Decoder.Decode.body {V : Type} (amf : Amf0 V) (dec : Decoder) (flvTag : FlvTag V) :
    Result Unit × Decoder × FlvTag V :=
  match DecodeFlvTag amf dec.r flvTag with
  | (.error err, r1, flvTag1) => (.error err, Decoder.skipTagSize { dec with r := r1 }, flvTag1)
  | (.panic, r1, flvTag1) => (.panic, { dec with r := r1 }, flvTag1)
  | (.ok (), r1, flvTag1) =>
    match Decoder.decodeTagSize { dec with r := r1 } with
    | (.error err, dec2) => (.error (.wrap err "Failed to decode tag size"), dec2, flvTag1)
    | (.panic, dec2) => (.panic, dec2, flvTag1)
    | (.ok _, dec2) => (.ok (), dec2, flvTag1)

/-- The method `Decoder.Decode`.  With `decodedOnce = false` control jumps to
the label `tagSize` first, and back to `body` once the initial tag size was
read as 0. -/
def Decoder.Decode {V : Type} (amf : Amf0 V) (dec : Decoder) (flvTag : FlvTag V) :
    Result Unit × Decoder × FlvTag V :=
  if !dec.decodedOnce then
    match dec.decodeTagSize with
    | (.error err, dec1) => (.error (.wrap err "Failed to decode tag size"), dec1, flvTag)
    | (.panic, dec1) => (.panic, dec1, flvTag)
    | (.ok previousTagSize, dec1) =>
      if previousTagSize ≠ 0 then (.error (.initialTagSize previousTagSize), dec1, flvTag)
      else Decoder.Decode.body amf { dec1 with decodedOnce := true } flvTag
  else
    Decoder.Decode.body amf dec flvTag


/-! ## Specification-side arithmetic and sample inputs -/

/-- Big-endian value of four bytes, by arithmetic. -/
def be32 (b0 b1 b2 b3 : Byte) : Nat :=
  b0.val * 2 ^ 24 + b1.val * 2 ^ 16 + b2.val * 2 ^ 8 + b3.val

/-- Big-endian value of three bytes, by arithmetic. -/
def be24 (b0 b1 b2 : Byte) : Nat :=
  b0.val * 2 ^ 16 + b1.val * 2 ^ 8 + b2.val

/-- Whether an error value is the "Initial tag size should be 0" error. -/
def Err.isInitialTagSize : Err → Bool
  | .initialTagSize _ => true
  | _ => false

/-- Whether an error value is the "Signature is not matched" error. -/
def Err.isSignatureNotMatched : Err → Bool
  | .signatureNotMatched _ => true
  | _ => false

/-- Whether a call returned the "Signature is not matched" error. -/
def Result.isSignatureError {α : Type} : Result α → Bool
  | .error e => e.isSignatureNotMatched
  | _ => false

/-- A one-byte-per-item value decoder, used to run the model on sample
streams: a name is the character of the next byte, a value is the next byte,
and an exhausted payload gives `io.EOF`. -/
def byteAmf : Amf0 Nat where
  decodeString p := match p with
    | [] => .error .EOF 0
    | b :: _ => .item (String.singleton (Char.ofNat b.val)) 1
  decodeValue p := match p with
    | [] => .error .EOF 0
    | b :: _ => .item b.val 1
  progress := by
    intro p a k h
    cases p with
    | nil => simp at h
    | cons b t => simp at h; simp [← h.2]

/-- A header value for sample decoders. -/
def sampleHeader : Header := { Version := 1, Flags := 5, DataOffset := 9 }

/-- Sample session stream: an initial tag-size field of 7 in front of an
audio tag with a 1-byte payload. -/
def streamBadInitialSize : List Byte :=
  [0, 0, 0, 7, 8, 0, 0, 1, 0, 0, 0, 0, 0, 0, 0, 0x20, 0, 0, 0, 12]

/-- Sample header bytes: valid signature, version 1, flags byte `0x04`
(audio bit only), data offset 9. -/
def headerAudioOnly : List Byte := [0x46, 0x4c, 0x56, 1, 0x04, 0, 0, 0, 9]

/-- Sample header bytes: valid signature, version 1, flags byte `0x05`
(audio and video bits), data offset 9. -/
def headerAudioVideo : List Byte := [0x46, 0x4c, 0x56, 1, 0x05, 0, 0, 0, 9]

/-- Sample header bytes with the signature `"XYZ"`. -/
def headerBadSignature : List Byte := [0x58, 0x59, 0x5a, 1, 0x05, 0, 0, 0, 9, 0, 0, 0, 0]

/-- The timestamp as the spec words it: `b5<<16 | b6<<8 | b7 | b4<<24`. -/
def specTimestamp (b4 b5 b6 b7 : Byte) : Nat :=
  (b5.val <<< 16) ||| (b6.val <<< 8) ||| b7.val ||| (b4.val <<< 24)

/-- Sample stream: an audio tag (type 8) with payload length 1, timestamp
bytes `01 02 03 04`, stream id 0 and the payload byte `0x20`. -/
def streamAudioTimestamp : List Byte :=
  [8, 0, 0, 1, 1, 2, 3, 4, 0, 0, 0, 0x20]

/-- Sample stream: an audio tag (type 8, format nibble 2) with payload length
5 and payload `20 01 02 03 04`, the tag-size field `00 00 00 10` that
follows it, and the first bytes of a next tag. -/
def streamAudio5 : List Byte :=
  [8, 0, 0, 5, 0, 0, 0, 0, 0, 0, 0, 0x20, 1, 2, 3, 4, 0, 0, 0, 16, 9, 0, 0, 0]

/-- Sample video payload: frame type 1, codec AVC, then the AVC inner header
`01 ff ff ff` and one byte of data. -/
def payloadAVC : List Byte := [0x17, 1, 0xff, 0xff, 0xff, 0xaa]

/-- Sample stream: an audio tag whose format nibble is AAC (`0xaf`) with
declared payload length 1, so that the AAC packet-type byte is missing; then
the tag-size field `00 00 00 0c` and the first bytes of a next tag. -/
def streamTruncatedAAC : List Byte :=
  [8, 0, 0, 1, 0, 0, 0, 0, 0, 0, 0, 0xaf, 0, 0, 0, 12, 9, 0, 0]

/-- Sample audio payload: format nibble 2 (not AAC), rate 3, 16-bit, stereo,
followed by three bytes of data. -/
def payloadMP3 : List Byte := [0x2f, 0x11, 0x22, 0x33]

/-- Sample audio payload: format nibble AAC, packet type 1, two bytes of data. -/
def payloadAAC : List Byte := [0xaf, 1, 0x21, 0x10]

/-- Sample video payload: frame type 2, codec 2 (not AVC), three bytes of data. -/
def payloadH263 : List Byte := [0x22, 0x0a, 0x0b, 0x0c]

/-- Sample stream: a tag with the unsupported type code 5, declared payload
length 2, two payload bytes and a following byte. -/
def streamUnsupported : List Byte :=
  [5, 0, 0, 2, 0, 0, 0, 0, 0, 0, 1, 0xaa, 0xbb, 0xcc]

/-- Whether a call ended in a run-time panic. -/
def Result.isPanic {α : Type} : Result α → Bool
  | .panic => true
  | _ => false

/-- Sample stream: a video tag (type 9) with declared payload length 6, the AVC
payload `17 01 ff ff ff aa` and the tag-size field that follows. -/
def streamVideoAVC : List Byte :=
  [9, 0, 0, 6, 0, 0, 0, 0, 0, 0, 0, 0x17, 1, 0xff, 0xff, 0xff, 0xaa, 0, 0, 0, 17]

/-- Sample tag value held by a caller before a call. -/
def tagBefore : FlvTag Nat :=
  { TagType := 9, Timestamp := 77, StreamID := 3, Data := .audio { SoundFormat := 2 } }

/-- Sample stream: a header with data offset 12, three filler bytes, then the
initial tag-size field. -/
def streamOffset12 : List Byte :=
  [0x46, 0x4c, 0x56, 1, 0x05, 0, 0, 0, 12, 0xaa, 0xbb, 0xcc, 0, 0, 0, 0]

/-- The reader stored in the `Data` field of a decoded audio or video body:
the number of bytes it may still hand out, if there is such a reader. -/
def TagData.dataLimit {V : Type} : TagData V → Option Nat
  | .audio v => v.Data
  | .video v => v.Data
  | _ => none

/-- The caller reads the `Data` stream of a returned tag to its end while the
session stream is `r`: the bytes obtained and the session stream left.  The
limited reader hands out at most its remaining count from the session stream. -/
def readDataToEnd {V : Type} (t : FlvTag V) (r : List Byte) : List Byte × List Byte :=
  match t.Data.dataLimit with
  | some n => (r.take n, r.drop n)
  | none => ([], r)

/-- Sample stream: an audio tag (non-AAC) with declared payload length 3 and
payload `20 01 02`, the tag-size field `00 00 00 0e`, and the first bytes of a
next tag. -/
def streamAudio3 : List Byte :=
  [8, 0, 0, 3, 0, 0, 0, 0, 0, 0, 0, 0x20, 1, 2, 0, 0, 0, 14, 9, 0]

/-! ## pool/pool.go -/

/-- The package-level `sync.Pool`: the buffers it currently holds, each with
its contents. -/
abbrev Pool := List (List Byte)

/-- The function `GetBuffer`: `pool.Get()` hands out one of the stored buffers
and removes it from the pool, or calls `New` (`new(bytes.Buffer)`, an empty
buffer) when it picks none; `choice` is the pick of `sync.Pool`. -/
def GetBuffer (pool : Pool) (choice : Nat) : List Byte × Pool :=
  match pool.get? choice with
  | some buffer => (buffer, pool.eraseIdx choice)
  | none => ([], pool)

/-- The function `PutBuffer`: a nil pointer (`none`) returns at once; otherwise
`buffer.Reset()` empties the buffer and `pool.Put` stores it. -/
def PutBuffer (pool : Pool) (buffer : Option (List Byte)) : Pool :=
  match buffer with
  | none => pool
  | some _ => [] :: pool

/-- One event in the life of the pool: a `GetBuffer` with the pick of the
pool, a `PutBuffer` of a buffer with any contents (or of nil), or the runtime
dropping a stored buffer. -/
inductive PoolOp where
  | get (choice : Nat)
  | put (buffer : Option (List Byte))
  | drop (index : Nat)
  deriving DecidableEq, Repr

/-- The pool after one event. -/
def PoolOp.apply (pool : Pool) : PoolOp → Pool
  | .get choice => (GetBuffer pool choice).2
  | .put buffer => PutBuffer pool buffer
  | .drop index => pool.eraseIdx index

/-- The pool after a history of events, starting from the empty pool of the
package initialisation. -/
def Pool.after (ops : List PoolOp) : Pool := ops.foldl PoolOp.apply []

/-! ## Specification side of the script-data decoder -/

/-- The map lookup `kv[name]`. -/
def mapGet {V : Type} (kv : List (String × V)) (name : String) : Option V :=
  match kv with
  | [] => none
  | (k, v) :: rest => if k = name then some v else mapGet rest name

/-- The map obtained from `kv` by assigning the pairs in their order. -/
def assignAll {V : Type} (kv pairs : List (String × V)) : List (String × V) :=
  pairs.foldl (fun m e => mapSet m e.1 e.2) kv

/-- As the spec words it: the value of the last pair called `name` in a
sequence of pairs, if there is one. -/
def lastValue {V : Type} (pairs : List (String × V)) (name : String) : Option V :=
  match pairs with
  | [] => none
  | (k, v) :: rest =>
    match lastValue rest name with
    | some w => some w
    | none => if k = name then some v else none

/-- As the spec words it: the bounded payload behind `r` is a sequence of
(name, value) pairs followed by ordinary end-of-stream at a name position;
`r'` is the reader after that end-of-stream. -/
inductive ScriptPairs {V : Type} (amf : Amf0 V) :
    LimitedReader → List (String × V) → LimitedReader → Prop where
  | done (r : LimitedReader) (n : Nat)
      (hName : amf.decodeString r.payload = .error .EOF n) :
      ScriptPairs amf r [] (r.advance n)
  | pair (r : LimitedReader) (key : String) (n : Nat) (value : V) (m : Nat)
      (pairs : List (String × V)) (r' : LimitedReader)
      (hName : amf.decodeString r.payload = .item key n)
      (hValue : amf.decodeValue (r.advance n).payload = .item value m)
      (hRest : ScriptPairs amf ((r.advance n).advance m) pairs r') :
      ScriptPairs amf r ((key, value) :: pairs) r'

/-- As the spec words it: after some complete pairs, decoding a name fails with
an error other than end-of-stream, or decoding the value of a pair whose name
was read fails with any error (end-of-stream included); the second index is
the error `DecodeScriptData` is to return. -/
inductive ScriptFails {V : Type} (amf : Amf0 V) : LimitedReader → Err → Prop where
  | name (r : LimitedReader) (err : Err) (n : Nat)
      (hName : amf.decodeString r.payload = .error err n) (hErr : err ≠ .EOF) :
      ScriptFails amf r (.wrap err "Failed to decode key")
  | value (r : LimitedReader) (key : String) (n : Nat) (err : Err) (m : Nat)
      (hName : amf.decodeString r.payload = .item key n)
      (hValue : amf.decodeValue (r.advance n).payload = .error err m) :
      ScriptFails amf r (.wrap err "Failed to decode value")
  | later (r : LimitedReader) (key : String) (n : Nat) (value : V) (m : Nat) (e : Err)
      (hName : amf.decodeString r.payload = .item key n)
      (hValue : amf.decodeValue (r.advance n).payload = .item value m)
      (hRest : ScriptFails amf ((r.advance n).advance m) e) :
      ScriptFails amf r e

/-- Sample script payload for `byteAmf`: the pairs A = 1, B = 2, A = 3. -/
def payloadScript : List Byte := [65, 1, 66, 2, 65, 3]

/-! ## Arithmetic of the byte fields -/

theorem or3_eq_be24 (b0 b1 b2 : Byte) :
    (b0.val <<< 16) ||| (b1.val <<< 8) ||| b2.val = be24 b0 b1 b2 := by
  have h1 := b1.isLt
  have h2 := b2.isLt
  have e1 : 2 ^ 8 * b1.val + b2.val = 2 ^ 8 * b1.val ||| b2.val :=
    Nat.mul_add_lt_is_or (i := 8) (by omega) _
  have e2 : 2 ^ 16 * b0.val + (2 ^ 8 * b1.val + b2.val)
      = 2 ^ 16 * b0.val ||| (2 ^ 8 * b1.val + b2.val) :=
    Nat.mul_add_lt_is_or (i := 16) (by omega) _
  simp only [Nat.shiftLeft_eq, be24]
  rw [Nat.lor_assoc, Nat.mul_comm b0.val, Nat.mul_comm b1.val, ← e1, ← e2]
  omega

theorem or4_eq_be32 (b0 b1 b2 b3 : Byte) :
    b3.val ||| (b2.val <<< 8) ||| (b1.val <<< 16) ||| (b0.val <<< 24) = be32 b0 b1 b2 b3 := by
  have h1 := b1.isLt
  have h2 := b2.isLt
  have h3 := b3.isLt
  have e1 : 2 ^ 8 * b2.val + b3.val = 2 ^ 8 * b2.val ||| b3.val :=
    Nat.mul_add_lt_is_or (i := 8) (by omega) _
  have e2 : 2 ^ 16 * b1.val + (2 ^ 8 * b2.val + b3.val)
      = 2 ^ 16 * b1.val ||| (2 ^ 8 * b2.val + b3.val) :=
    Nat.mul_add_lt_is_or (i := 16) (by omega) _
  have e3 : 2 ^ 24 * b0.val + (2 ^ 16 * b1.val + (2 ^ 8 * b2.val + b3.val))
      = 2 ^ 24 * b0.val ||| (2 ^ 16 * b1.val + (2 ^ 8 * b2.val + b3.val)) :=
    Nat.mul_add_lt_is_or (i := 24) (by omega) _
  simp only [Nat.shiftLeft_eq, be32]
  rw [Nat.lor_comm b3.val, Nat.lor_comm _ (b1.val * 2 ^ 16), Nat.lor_comm _ (b0.val * 2 ^ 24),
    Nat.mul_comm b0.val, Nat.mul_comm b1.val, Nat.mul_comm b2.val, ← e1, ← e2, ← e3]
  omega

theorem Uint32_cons4 (b0 b1 b2 b3 : Byte) (t : List Byte) :
    Uint32 (b0 :: b1 :: b2 :: b3 :: t) = some (be32 b0 b1 b2 b3) := by
  simp only [Uint32, or4_eq_be32]

/-! ## Limited readers -/

theorem drop_eq_drop_of_ge {α : Type} (l : List α) (a b : Nat)
    (h : a = b ∨ (l.length ≤ a ∧ l.length ≤ b)) : l.drop a = l.drop b := by
  rcases h with h | ⟨ha, hb⟩
  · rw [h]
  · rw [List.drop_eq_nil_of_le ha, List.drop_eq_nil_of_le hb]

theorem LimitedReader.advance_advance (l : LimitedReader) (j k : Nat) :
    (l.advance j).advance k = l.advance (j + k) := by
  simp only [LimitedReader.advance, List.drop_drop, LimitedReader.mk.injEq]
  constructor
  · congr 1; omega
  · omega

theorem LimitedReader.discard_advance_R (l : LimitedReader) (j : Nat) :
    (l.advance j).discard.R = l.R.drop l.N := by
  simp only [LimitedReader.discard, LimitedReader.advance, LimitedReader.payload,
    List.drop_drop, List.length_take, List.length_drop]
  apply drop_eq_drop_of_ge
  omega

theorem LimitedReader.discard_R (l : LimitedReader) : l.discard.R = l.R.drop l.N := by
  have h := LimitedReader.discard_advance_R l 0
  simpa [LimitedReader.advance] using h

theorem LimitedReader.payload_advance (l : LimitedReader) (k : Nat)
    (h : k ≤ l.payload.length) : (l.advance k).payload = l.payload.drop k := by
  simp only [LimitedReader.payload, List.length_take] at h
  simp only [LimitedReader.payload, LimitedReader.advance, List.drop_take]
  congr 2
  omega

theorem LimitedReader.CopyN_one (l : LimitedReader) (b : Byte) (p : List Byte)
    (h : l.payload = b :: p) :
    l.CopyN 1 = (.ok [b], l.advance 1) ∧ (l.advance 1).payload = p := by
  constructor
  · simp [LimitedReader.CopyN, h]
  · rw [LimitedReader.payload_advance l 1 (by simp [h]), h]; rfl

theorem LimitedReader.CopyN_fail (l : LimitedReader) (n : Nat) (h : l.payload.length < n) :
    l.CopyN n = (.error .EOF, l.advance l.payload.length) := by
  simp [LimitedReader.CopyN, Nat.not_le.mpr h]

/-! ## Shape of the errors and of the state after a call -/

theorem CopyN_error (r : List Byte) (n : Nat) (e : Err) (r1 : List Byte)
    (h : CopyN r n = (.error e, r1)) : e = .EOF ∧ r1 = [] ∧ r.length < n := by
  unfold CopyN at h
  split at h
  · simp at h
  · simp only [Prod.mk.injEq, Except.error.injEq] at h
    exact ⟨h.1.symm, h.2.symm, by omega⟩

theorem CopyN_ok (r : List Byte) (n : Nat) (buf r1 : List Byte)
    (h : CopyN r n = (.ok buf, r1)) : buf = r.take n ∧ r1 = r.drop n ∧ n ≤ r.length := by
  unfold CopyN at h
  split at h
  · simp only [Prod.mk.injEq, Except.ok.injEq] at h
    exact ⟨h.1.symm, h.2.symm, by assumption⟩
  · simp at h

theorem DecodeFlvTag_error_not_initial {V : Type} (amf : Amf0 V) (r : List Byte)
    (flvTag : FlvTag V) (e : Err) (r1 : List Byte) (t1 : FlvTag V)
    (h : DecodeFlvTag amf r flvTag = (.error e, r1, t1)) :
    e.isInitialTagSize = false := by
  unfold DecodeFlvTag at h
  split at h
  · rename_i hc
    simp only [Prod.mk.injEq, Result.error.injEq] at h
    obtain ⟨rfl, -, -⟩ := h
    rw [(CopyN_error _ _ _ _ hc).1]; rfl
  · split at h
    · simp only at h
      split_ifs at h
      all_goals first
        | (split at h <;>
            first
              | (simp only [Prod.mk.injEq, Result.error.injEq] at h
                 obtain ⟨rfl, -, -⟩ := h; rfl)
              | simp at h)
        | (simp only [Prod.mk.injEq, Result.error.injEq] at h
           obtain ⟨rfl, -, -⟩ := h; rfl)
    · simp at h

theorem decodeTagSize_snd (dec : Decoder) :
    (Decoder.decodeTagSize dec).2 = { dec with r := dec.r.drop 4 } := by
  unfold Decoder.decodeTagSize CopyN
  split_ifs with h
  · simp only
    split <;> rfl
  · simp only [Decoder.mk.injEq, and_true]
    exact (List.drop_eq_nil_of_le (by omega)).symm

theorem skipTagSize_eq (dec : Decoder) :
    Decoder.skipTagSize dec = { dec with r := dec.r.drop 4 } := by
  simp [Decoder.skipTagSize, LimitedReader.discard_R]

theorem Decode_body_decodedOnce {V : Type} (amf : Amf0 V) (dec : Decoder) (flvTag : FlvTag V) :
    (Decoder.Decode.body amf dec flvTag).2.1.decodedOnce = dec.decodedOnce := by
  unfold Decoder.Decode.body
  split
  · rfl
  · rfl
  · rename_i r1 t1 _
    have h := decodeTagSize_snd { dec with r := r1 }
    generalize Decoder.decodeTagSize { dec with r := r1 } = q at h ⊢
    obtain ⟨res, dec2⟩ := q
    simp only at h
    subst h
    cases res <;> rfl

theorem Decode_body_error_not_initial {V : Type} (amf : Amf0 V) (dec : Decoder)
    (flvTag : FlvTag V) (e : Err)
    (h : (Decoder.Decode.body amf dec flvTag).1 = .error e) : e.isInitialTagSize = false := by
  unfold Decoder.Decode.body at h
  split at h
  · rename_i hd
    simp only [Result.error.injEq] at h
    subst h
    exact DecodeFlvTag_error_not_initial _ _ _ _ _ _ hd
  · simp at h
  · split at h
    · simp only [Result.error.injEq] at h
      subst h; rfl
    · simp at h
    · simp at h

/-! ## The claims -/

/-- C1: on a decoder with `decodedOnce = false` and a stream that holds at
least 4 bytes `b0 b1 b2 b3` at the cursor, `Decode` fails with the "initial tag
size should be 0" error exactly when the big-endian value of those bytes is
nonzero; then only these 4 bytes are consumed and `decodedOnce` stays false.
When the value is zero, `Decode` behaves as `Decode` on the stream after the 4
bytes with `decodedOnce = true` (it goes on to decode the tag), and
`decodedOnce` is true afterwards. -/
theorem Decode_initial_tag_size {V : Type} (amf : Amf0 V) (dec : Decoder) (flvTag : FlvTag V)
    (b0 b1 b2 b3 : Byte) (rest : List Byte)
    (hOnce : dec.decodedOnce = false) (hr : dec.r = b0 :: b1 :: b2 :: b3 :: rest) :
    ((∃ n, (dec.Decode amf flvTag).1 = .error (.initialTagSize n)) ↔ be32 b0 b1 b2 b3 ≠ 0) ∧
    (be32 b0 b1 b2 b3 ≠ 0 →
      dec.Decode amf flvTag =
        (.error (.initialTagSize (be32 b0 b1 b2 b3)),
          { r := rest, header := dec.header, decodedOnce := false }, flvTag)) ∧
    (be32 b0 b1 b2 b3 = 0 →
      dec.Decode amf flvTag =
        Decoder.Decode amf { r := rest, header := dec.header, decodedOnce := true } flvTag ∧
      (dec.Decode amf flvTag).2.1.decodedOnce = true) := by
  have hts : dec.decodeTagSize =
      (.ok (be32 b0 b1 b2 b3), { r := rest, header := dec.header, decodedOnce := false }) := by
    simp [Decoder.decodeTagSize, CopyN, hr, Uint32_cons4, hOnce]
  have hne : be32 b0 b1 b2 b3 ≠ 0 → dec.Decode amf flvTag =
      (.error (.initialTagSize (be32 b0 b1 b2 b3)),
        { r := rest, header := dec.header, decodedOnce := false }, flvTag) := by
    intro h
    simp [Decoder.Decode, hOnce, hts, h]
  have hz : be32 b0 b1 b2 b3 = 0 → dec.Decode amf flvTag =
      Decoder.Decode amf { r := rest, header := dec.header, decodedOnce := true } flvTag := by
    intro h
    simp [Decoder.Decode, hOnce, hts, h]
  refine ⟨⟨?_, fun h => ⟨_, by rw [hne h]⟩⟩, hne, fun h => ⟨hz h, ?_⟩⟩
  · rintro ⟨n, hn⟩ h0
    rw [hz h0] at hn
    simp only [Decoder.Decode, Bool.not_true, Bool.false_eq_true, if_false] at hn
    have := Decode_body_error_not_initial _ _ _ _ hn
    simp [Err.isInitialTagSize] at this
  · rw [hz h]
    simp only [Decoder.Decode, Bool.not_true, Bool.false_eq_true, if_false]
    rw [Decode_body_decodedOnce]

/-- Witness for `Decode_initial_tag_size`: a nonzero initial tag-size field
`00 00 00 07` in front of an audio tag. -/
theorem Decode_initial_tag_size_witness :
    be32 0 0 0 7 ≠ 0 ∧
    Decoder.Decode byteAmf
        { r := streamBadInitialSize, header := sampleHeader, decodedOnce := false } {} =
      (.error (.initialTagSize 7),
        { r := streamBadInitialSize.drop 4, header := sampleHeader, decodedOnce := false }, {}) :=
  ⟨by decide,
   (Decode_initial_tag_size byteAmf
      { r := streamBadInitialSize, header := sampleHeader, decodedOnce := false } {} 0 0 0 7
      (streamBadInitialSize.drop 4) rfl rfl).2.1 (by decide)⟩

/-- C2 (counterexample): the 3-byte stream `"XYZ"` differs from the signature
in its first 3 bytes, yet `DecodeFlvHeader` fails with `io.EOF`, not with the
signature-mismatch error. -/
theorem DecodeFlvHeader_short_stream_not_signature_error :
    ([0x58, 0x59, 0x5a] : List Byte).take 3 ≠ HeaderSignature ∧
    DecodeFlvHeader [0x58, 0x59, 0x5a] = (.error .EOF, []) ∧
    (DecodeFlvHeader [0x58, 0x59, 0x5a]).1.isSignatureError = false := by
  decide

/-- C2 (amended): a stream whose first 3 bytes differ from the signature makes
`DecodeFlvHeader` fail with the signature-mismatch error when it holds at
least `HeaderLength` = 9 bytes (the 9 bytes are consumed), and with `io.EOF`
when it holds fewer; in both cases no header is returned. -/
theorem DecodeFlvHeader_bad_signature (r : List Byte) (hs : r.take 3 ≠ HeaderSignature) :
    (HeaderLength ≤ r.length →
      DecodeFlvHeader r =
        (.error (.signatureNotMatched (r.take 3)), r.drop HeaderLength)) ∧
    (r.length < HeaderLength → DecodeFlvHeader r = (.error .EOF, [])) := by
  constructor
  · intro hl
    have h3 : min 3 HeaderLength = 3 := by decide
    simp [DecodeFlvHeader, CopyN, hl, List.take_take, h3, hs]
  · intro hl
    simp [DecodeFlvHeader, CopyN, Nat.not_le.mpr hl]

/-- Witness for `DecodeFlvHeader_bad_signature`: a 13-byte stream starting
with `"XYZ"`. -/
theorem DecodeFlvHeader_bad_signature_witness :
    headerBadSignature.take 3 ≠ HeaderSignature ∧
    DecodeFlvHeader headerBadSignature =
      (.error (.signatureNotMatched [0x58, 0x59, 0x5a]), [0, 0, 0, 0]) :=
  ⟨by simp [headerBadSignature, HeaderSignature],
   (DecodeFlvHeader_bad_signature headerBadSignature
      (by simp [headerBadSignature, HeaderSignature])).1
     (by simp [headerBadSignature, HeaderLength])⟩

theorem flagsAudio_eq_zero (f : Byte) : (f.val &&& 0x03) >>> 2 = 0 := by
  have h : f.val &&& 0x03 ≤ 3 := Nat.and_le_right
  rw [Nat.shiftRight_eq_div_pow]
  omega

theorem DecodeFlvHeader_ok_hasAudio (r r1 : List Byte) (hd : Header)
    (h : DecodeFlvHeader r = (.ok hd, r1)) : hd.hasAudio = false := by
  unfold DecodeFlvHeader at h
  split at h
  · simp at h
  · simp only at h
    split_ifs at h
    · simp at h
    split at h
    · simp only [flagsAudio_eq_zero, ne_eq, not_true_eq_false, if_false, Prod.mk.injEq,
        Result.ok.injEq] at h
      obtain ⟨rfl, -⟩ := h
      split_ifs <;> simp [Header.hasAudio, FlagsAudio, FlagsVideo]
    · simp at h

/-- C3: on the header `46 4c 56 01 04 00 00 00 09`, whose flags byte has bit 2
set, `DecodeFlvHeader` returns a header without the has-audio flag; the same
on flags byte `0x05`, where only has-video is set; and no input at all gives
a header with the has-audio flag, because the code computes
`(flags & 0x03) >> 2`, which is always 0. -/
theorem DecodeFlvHeader_audio_flag_never_set :
    DecodeFlvHeader headerAudioOnly =
      (.ok { Version := 1, Flags := 0, DataOffset := 9 }, []) ∧
    DecodeFlvHeader headerAudioVideo =
      (.ok { Version := 1, Flags := FlagsVideo, DataOffset := 9 }, []) ∧
    (∀ r : List Byte,
      match (DecodeFlvHeader r).1 with
      | .ok h => h.hasAudio = false
      | _ => True) := by
  refine ⟨by decide, by decide, ?_⟩
  intro r
  generalize hq : DecodeFlvHeader r = q
  obtain ⟨res, r1⟩ := q
  cases res with
  | ok hd => exact DecodeFlvHeader_ok_hasAudio r r1 hd hq
  | error e => trivial
  | panic => trivial

/-! ### Tag prologue -/

theorem DecodeFlvTag_fields {V : Type} (amf : Amf0 V) (flvTag : FlvTag V)
    (b0 b1 b2 b3 b4 b5 b6 b7 b8 b9 b10 : Byte) (rest : List Byte) :
    (DecodeFlvTag amf (b0 :: b1 :: b2 :: b3 :: b4 :: b5 :: b6 :: b7 :: b8 :: b9 :: b10 :: rest)
        flvTag).2.2.Timestamp
      = (b4.val <<< 16) ||| (b5.val <<< 8) ||| b6.val ||| (b7.val <<< 24) ∧
    (DecodeFlvTag amf (b0 :: b1 :: b2 :: b3 :: b4 :: b5 :: b6 :: b7 :: b8 :: b9 :: b10 :: rest)
        flvTag).2.2.TagType = b0.val ∧
    (DecodeFlvTag amf (b0 :: b1 :: b2 :: b3 :: b4 :: b5 :: b6 :: b7 :: b8 :: b9 :: b10 :: rest)
        flvTag).2.2.StreamID = (b8.val <<< 16) ||| (b9.val <<< 8) ||| b10.val := by
  simp only [DecodeFlvTag, CopyN, List.length_cons, Nat.le_add_left, if_true, List.take_succ_cons,
    List.take_zero]
  split_ifs
  · split <;> exact ⟨rfl, rfl, rfl⟩
  · split <;> exact ⟨rfl, rfl, rfl⟩
  · split <;> exact ⟨rfl, rfl, rfl⟩
  · exact ⟨rfl, rfl, rfl⟩

theorem timestamp_arith (b4 b5 b6 b7 : Byte) :
    (b4.val <<< 16) ||| (b5.val <<< 8) ||| b6.val ||| (b7.val <<< 24)
      = b7.val * 2 ^ 24 + be24 b4 b5 b6 := by
  have h4 := b4.isLt
  have h5 := b5.isLt
  have h6 := b6.isLt
  have hlt : be24 b4 b5 b6 < 2 ^ 24 := by unfold be24; omega
  rw [or3_eq_be24, Nat.lor_comm, Nat.shiftLeft_eq, Nat.mul_comm,
    ← Nat.mul_add_lt_is_or hlt]

/-- C4 (counterexample): on an audio tag whose prologue bytes 4..7 are
`01 02 03 04`, `DecodeFlvTag` succeeds and stores the timestamp `0x04010203`,
whereas `b5<<16 | b6<<8 | b7 | b4<<24` is `0x01020304`. -/
theorem DecodeFlvTag_timestamp_not_spec_order :
    (DecodeFlvTag byteAmf streamAudioTimestamp {}).1 = .ok () ∧
    (DecodeFlvTag byteAmf streamAudioTimestamp {}).2.2.Timestamp = 0x04010203 ∧
    specTimestamp 1 2 3 4 = 0x01020304 ∧
    (DecodeFlvTag byteAmf streamAudioTimestamp {}).2.2.Timestamp ≠ specTimestamp 1 2 3 4 := by
  decide

/-- C4 (amended): for every 11-byte tag prologue `b0..b10` (with a supported
tag type or not), the `Timestamp` that `DecodeFlvTag` stores in the tag is
`b4<<16 | b5<<8 | b6 | b7<<24`: bytes 4, 5, 6 are the low 24 bits in
big-endian order and byte 7 is the most significant byte; the value is below
`2^32`. -/
theorem DecodeFlvTag_timestamp {V : Type} (amf : Amf0 V) (flvTag : FlvTag V)
    (b0 b1 b2 b3 b4 b5 b6 b7 b8 b9 b10 : Byte) (rest : List Byte) :
    (DecodeFlvTag amf (b0 :: b1 :: b2 :: b3 :: b4 :: b5 :: b6 :: b7 :: b8 :: b9 :: b10 :: rest)
        flvTag).2.2.Timestamp
      = (b4.val <<< 16) ||| (b5.val <<< 8) ||| b6.val ||| (b7.val <<< 24) ∧
    (DecodeFlvTag amf (b0 :: b1 :: b2 :: b3 :: b4 :: b5 :: b6 :: b7 :: b8 :: b9 :: b10 :: rest)
        flvTag).2.2.Timestamp
      = b7.val * 2 ^ 24 + b4.val * 2 ^ 16 + b5.val * 2 ^ 8 + b6.val ∧
    (DecodeFlvTag amf (b0 :: b1 :: b2 :: b3 :: b4 :: b5 :: b6 :: b7 :: b8 :: b9 :: b10 :: rest)
        flvTag).2.2.Timestamp < 2 ^ 32 := by
  have h := (DecodeFlvTag_fields amf flvTag b0 b1 b2 b3 b4 b5 b6 b7 b8 b9 b10 rest).1
  have ha := timestamp_arith b4 b5 b6 b7
  have h4 := b4.isLt
  have h5 := b5.isLt
  have h6 := b6.isLt
  have h7 := b7.isLt
  refine ⟨h, ?_, ?_⟩
  · rw [h, ha]; unfold be24; omega
  · rw [h, ha]; unfold be24; omega

/-! ### AVC inner header -/

theorem Uint32_short (b : List Byte) (h : b.length < 4) : Uint32 b = none := by
  unfold Uint32
  split
  · simp only [List.length_cons] at h
    omega
  · rfl

theorem DecodeAVCVideoPacket_never_ok (r : LimitedReader) (p : AVCVideoPacket) :
    (DecodeAVCVideoPacket r p).1 = .panic ∨ (DecodeAVCVideoPacket r p).1 = .error .EOF := by
  unfold DecodeAVCVideoPacket LimitedReader.CopyN
  split_ifs with h
  · left
    have hu : Uint32 (List.drop 1 (List.take 4 r.payload)) = none :=
      Uint32_short _ (by simp; omega)
    simp only [hu]
    split
    · simp_all
    · rfl
  · right; rfl

/-- C5: `DecodeAVCVideoPacket` on the inner header `01 ff ff ff` does not
return: after the 4 bytes are copied, `binary.BigEndian.Uint32` is applied to
the 3-byte slice `buffer.Bytes()[1:]` and panics on index 3.  So does
`DecodeVideoData` on an AVC payload, and `DecodeAVCVideoPacket` succeeds on no
input at all: it panics, or fails with `io.EOF` when fewer than 4 bytes are
left. -/
theorem DecodeAVCVideoPacket_panics :
    DecodeAVCVideoPacket { R := [1, 0xff, 0xff, 0xff], N := 4 } {} =
      (.panic, { R := [], N := 0 }, {}) ∧
    DecodeAVCVideoPacket { R := [1, 0, 0, 1], N := 4 } {} =
      (.panic, { R := [], N := 0 }, {}) ∧
    (DecodeVideoData { R := payloadAVC, N := 6 } {}).1 = .panic ∧
    (∀ (r : LimitedReader) (p : AVCVideoPacket),
      (DecodeAVCVideoPacket r p).1 = .panic ∨ (DecodeAVCVideoPacket r p).1 = .error .EOF) :=
  ⟨by decide, by decide, by decide, DecodeAVCVideoPacket_never_ok⟩

/-! ### The tag-size field after a tag -/

/-- C6: on an audio tag with declared payload length 5 (`streamAudio5`),
`DecodeFlvTag` succeeds having consumed 12 bytes (prologue and format byte),
so the tag-size read of `Decode` takes the payload bytes `01 02 03 04` at
offsets 12..15, not the field `00 00 00 10` at offsets 16..19; `Decode`
returns nil with the cursor at offset 16 and the tag's `Data` still entitled
to 4 bytes. -/
theorem Decode_reads_payload_as_tag_size :
    DecodeFlvTag byteAmf streamAudio5 {} =
      (.ok (), streamAudio5.drop 12,
        { TagType := 8, Timestamp := 0, StreamID := 0,
          Data := .audio { SoundFormat := 2, Data := some 4 } }) ∧
    Decoder.decodeTagSize
        { r := streamAudio5.drop 12, header := sampleHeader, decodedOnce := true } =
      (.ok 0x01020304,
        { r := streamAudio5.drop 16, header := sampleHeader, decodedOnce := true }) ∧
    Decoder.Decode byteAmf
        { r := streamAudio5, header := sampleHeader, decodedOnce := true } {} =
      (.ok (), { r := streamAudio5.drop 16, header := sampleHeader, decodedOnce := true },
        { TagType := 8, Timestamp := 0, StreamID := 0,
          Data := .audio { SoundFormat := 2, Data := some 4 } }) ∧
    (streamAudio5.drop 12).take 4 = [1, 2, 3, 4] ∧
    (streamAudio5.drop (11 + 5)).take 4 = [0, 0, 0, 16] := by
  decide

/-! ### Position of the limited reader after a sub-decoder -/

theorem LimitedReader.CopyN_snd (l : LimitedReader) (n : Nat) :
    ∃ j, (l.CopyN n).2 = l.advance j := by
  unfold LimitedReader.CopyN
  split_ifs
  · exact ⟨_, rfl⟩
  · exact ⟨_, rfl⟩

theorem DecodeAACAudioData_reader (r : LimitedReader) (a : AACAudioData) :
    ∃ j, (DecodeAACAudioData r a).2.1 = r.advance j := by
  obtain ⟨j, hj⟩ := LimitedReader.CopyN_snd r 1
  unfold DecodeAACAudioData
  generalize r.CopyN 1 = q at hj ⊢
  obtain ⟨res, r1⟩ := q
  simp only at hj
  subst hj
  cases res with
  | error e => exact ⟨j, rfl⟩
  | ok buf => cases buf <;> exact ⟨j, rfl⟩

theorem DecodeAVCVideoPacket_reader (r : LimitedReader) (a : AVCVideoPacket) :
    ∃ j, (DecodeAVCVideoPacket r a).2.1 = r.advance j := by
  obtain ⟨j, hj⟩ := LimitedReader.CopyN_snd r 4
  unfold DecodeAVCVideoPacket
  generalize r.CopyN 4 = q at hj ⊢
  obtain ⟨res, r1⟩ := q
  simp only at hj
  subst hj
  cases res with
  | error e => exact ⟨j, rfl⟩
  | ok buf =>
    simp only
    split <;> exact ⟨j, rfl⟩

theorem DecodeAudioData_reader (r : LimitedReader) (a : AudioData) :
    ∃ j, (DecodeAudioData r a).2.1 = r.advance j := by
  obtain ⟨j, hj⟩ := LimitedReader.CopyN_snd r 1
  unfold DecodeAudioData
  generalize r.CopyN 1 = q at hj ⊢
  obtain ⟨res, r1⟩ := q
  simp only at hj
  subst hj
  cases res with
  | error e => exact ⟨j, rfl⟩
  | ok buf =>
    cases buf with
    | nil => exact ⟨j, rfl⟩
    | cons b0 t =>
      simp only
      split_ifs
      · obtain ⟨k, hk⟩ := DecodeAACAudioData_reader (r.advance j) {}
        rw [LimitedReader.advance_advance] at hk
        generalize DecodeAACAudioData (r.advance j) {} = q at hk ⊢
        obtain ⟨res, r2, a2⟩ := q
        simp only at hk
        subst hk
        cases res <;> exact ⟨j + k, rfl⟩
      · exact ⟨j, rfl⟩

theorem DecodeVideoData_reader (r : LimitedReader) (a : VideoData) :
    ∃ j, (DecodeVideoData r a).2.1 = r.advance j := by
  obtain ⟨j, hj⟩ := LimitedReader.CopyN_snd r 1
  unfold DecodeVideoData
  generalize r.CopyN 1 = q at hj ⊢
  obtain ⟨res, r1⟩ := q
  simp only at hj
  subst hj
  cases res with
  | error e => exact ⟨j, rfl⟩
  | ok buf =>
    cases buf with
    | nil => exact ⟨j, rfl⟩
    | cons b0 t =>
      simp only
      split_ifs
      · obtain ⟨k, hk⟩ := DecodeAVCVideoPacket_reader (r.advance j) {}
        rw [LimitedReader.advance_advance] at hk
        generalize DecodeAVCVideoPacket (r.advance j) {} = q at hk ⊢
        obtain ⟨res, r2, a2⟩ := q
        simp only at hk
        subst hk
        cases res <;> exact ⟨j + k, rfl⟩
      · exact ⟨j, rfl⟩

theorem DecodeScriptData_loop_reader {V : Type} (amf : Amf0 V) (fuel : Nat) :
    ∀ (r : LimitedReader) (kv : List (String × V)),
      ∃ j, (DecodeScriptData.loop amf fuel r kv).2 = r.advance j := by
  induction fuel with
  | zero =>
    intro r kv
    exact ⟨0, by simp [DecodeScriptData.loop, LimitedReader.advance]⟩
  | succ fuel ih =>
    intro r kv
    unfold DecodeScriptData.loop
    cases amf.decodeString r.payload with
    | error err n =>
      simp only
      split_ifs <;> exact ⟨n, rfl⟩
    | item key n =>
      simp only
      cases amf.decodeValue (r.advance n).payload with
      | error err m => exact ⟨n + m, by simp [LimitedReader.advance_advance]⟩
      | item value m =>
        obtain ⟨k, hk⟩ := ih ((r.advance n).advance m) (mapSet kv key value)
        refine ⟨n + m + k, ?_⟩
        simp only [LimitedReader.advance_advance] at hk ⊢
        exact hk

theorem DecodeScriptData_reader {V : Type} (amf : Amf0 V) (r : LimitedReader)
    (data : ScriptData V) : ∃ j, (DecodeScriptData amf r data).2.1 = r.advance j := by
  obtain ⟨j, hj⟩ := DecodeScriptData_loop_reader amf (r.payload.length + 1) r []
  unfold DecodeScriptData
  generalize DecodeScriptData.loop amf (r.payload.length + 1) r [] = q at hj ⊢
  obtain ⟨res, r1⟩ := q
  simp only at hj
  subst hj
  cases res <;> exact ⟨j, rfl⟩

/-- After a failed `DecodeFlvTag` on a complete prologue, the stream is the
one after the prologue with the declared payload length dropped. -/
theorem DecodeFlvTag_error_stream {V : Type} (amf : Amf0 V) (flvTag : FlvTag V)
    (b0 b1 b2 b3 b4 b5 b6 b7 b8 b9 b10 : Byte) (rest : List Byte)
    (e : Err) (r1 : List Byte) (t1 : FlvTag V)
    (h : DecodeFlvTag amf
        (b0 :: b1 :: b2 :: b3 :: b4 :: b5 :: b6 :: b7 :: b8 :: b9 :: b10 :: rest) flvTag
      = (.error e, r1, t1)) :
    r1 = rest.drop ((b1.val <<< 16) ||| (b2.val <<< 8) ||| b3.val) := by
  simp only [DecodeFlvTag, CopyN, List.length_cons, Nat.le_add_left, if_true,
    List.take_succ_cons, List.take_zero, List.drop_succ_cons, List.drop_zero] at h
  generalize (b1.val <<< 16) ||| (b2.val <<< 8) ||| b3.val = L at h ⊢
  split_ifs at h
  · obtain ⟨j, hj⟩ := DecodeAudioData_reader { R := rest, N := L } {}
    generalize DecodeAudioData { R := rest, N := L } {} = q at hj h
    obtain ⟨res, lr1, v⟩ := q
    simp only at hj
    subst hj
    cases res <;> simp only [Prod.mk.injEq, reduceCtorEq, false_and] at h
    rw [← h.2.1, LimitedReader.discard_advance_R]
  · obtain ⟨j, hj⟩ := DecodeVideoData_reader { R := rest, N := L } {}
    generalize DecodeVideoData { R := rest, N := L } {} = q at hj h
    obtain ⟨res, lr1, v⟩ := q
    simp only at hj
    subst hj
    cases res <;> simp only [Prod.mk.injEq, reduceCtorEq, false_and] at h
    rw [← h.2.1, LimitedReader.discard_advance_R]
  · obtain ⟨j, hj⟩ := DecodeScriptData_reader amf { R := rest, N := L } {}
    generalize DecodeScriptData amf { R := rest, N := L } {} = q at hj h
    obtain ⟨res, lr1, v⟩ := q
    simp only at hj
    subst hj
    cases res <;> simp only [Prod.mk.injEq, reduceCtorEq, false_and] at h
    rw [← h.2.1, LimitedReader.discard_advance_R]
  · simp only [Prod.mk.injEq] at h
    rw [← h.2.1, LimitedReader.discard_R]

/-- C7: let tag K have a complete 11-byte prologue `b0..b10` declaring payload
length `L` (the big-endian value of `b1 b2 b3`), with at least `L + 4` bytes
after the prologue.  If `DecodeFlvTag` returns an error (a sub-decoder error
or an unsupported tag type), exactly `11 + L` bytes have been consumed when
it returns; `Decode` (on a decoder that has passed the initial tag-size field)
then returns this error having consumed exactly 4 bytes more, so the cursor is
at the prologue of tag K+1. -/
theorem Decode_body_failure_realigns {V : Type} (amf : Amf0 V) (dec : Decoder)
    (flvTag : FlvTag V) (b0 b1 b2 b3 b4 b5 b6 b7 b8 b9 b10 : Byte) (rest : List Byte)
    (e : Err) (r1 : List Byte) (t1 : FlvTag V)
    (hOnce : dec.decodedOnce = true)
    (hr : dec.r = b0 :: b1 :: b2 :: b3 :: b4 :: b5 :: b6 :: b7 :: b8 :: b9 :: b10 :: rest)
    (hlen : be24 b1 b2 b3 + 4 ≤ rest.length)
    (h : DecodeFlvTag amf dec.r flvTag = (.error e, r1, t1)) :
    r1 = dec.r.drop (11 + be24 b1 b2 b3) ∧
    r1.length + (11 + be24 b1 b2 b3) = dec.r.length ∧
    dec.Decode amf flvTag =
      (.error e,
        { r := dec.r.drop (11 + be24 b1 b2 b3 + 4), header := dec.header, decodedOnce := true },
        t1) ∧
    (dec.Decode amf flvTag).2.1.r.length + (11 + be24 b1 b2 b3 + 4) = dec.r.length := by
  have h1 : r1 = dec.r.drop (11 + be24 b1 b2 b3) := by
    have hs := h
    rw [hr] at hs
    have := DecodeFlvTag_error_stream amf flvTag b0 b1 b2 b3 b4 b5 b6 b7 b8 b9 b10 rest e r1 t1 hs
    rw [or3_eq_be24] at this
    rw [this, hr, ← List.drop_drop]
    rfl
  have hl : dec.r.length = rest.length + 11 := by rw [hr]; simp
  have hD : dec.Decode amf flvTag =
      (.error e,
        { r := dec.r.drop (11 + be24 b1 b2 b3 + 4), header := dec.header, decodedOnce := true },
        t1) := by
    simp only [Decoder.Decode, hOnce, Bool.not_true, Bool.false_eq_true, if_false,
      Decoder.Decode.body, h, skipTagSize_eq, h1, List.drop_drop]
  refine ⟨h1, ?_, hD, ?_⟩
  · rw [h1, List.length_drop]; omega
  · rw [hD]; simp only [List.length_drop]; omega

/-- Witness for `Decode_body_failure_realigns`: an AAC audio tag whose declared
payload (1 byte) ends before the AAC packet-type byte; the body decode fails,
and `Decode` leaves the cursor at the next prologue (`09 00 00`). -/
theorem Decode_body_failure_realigns_witness :
    Decoder.Decode byteAmf
        { r := streamTruncatedAAC, header := sampleHeader, decodedOnce := true } {} =
      (.error (.wrap .ErrUnexpectedEOF "Failed to decode audio data"),
        { r := streamTruncatedAAC.drop (11 + 1 + 4), header := sampleHeader,
          decodedOnce := true },
        { TagType := 8, Timestamp := 0, StreamID := 0 }) ∧
    streamTruncatedAAC.drop (11 + 1 + 4) = [9, 0, 0] :=
  ⟨(Decode_body_failure_realigns byteAmf
      { r := streamTruncatedAAC, header := sampleHeader, decodedOnce := true } {}
      8 0 0 1 0 0 0 0 0 0 0 [0xaf, 0, 0, 0, 12, 9, 0, 0]
      (.wrap .ErrUnexpectedEOF "Failed to decode audio data") [0, 0, 0, 12, 9, 0, 0]
      { TagType := 8, Timestamp := 0, StreamID := 0 }
      rfl rfl (by decide) (by decide)).2.2.1,
   by decide⟩

/-! ### Short reads -/

/-- C8 (counterexample): a header cut to 2 bytes, a prologue cut to 3 bytes and
a tag-size field cut to 2 bytes (before the first tag, and after a decoded
tag) give exactly the results that the stream ending at the start of that
field gives (`io.EOF`; for `Decode` wrapped or not as on that shorter stream),
so these errors do not differ between `0 < k` bytes and 0 bytes. -/
theorem short_read_same_error_as_empty :
    DecodeFlvHeader [0x46, 0x4c] = (.error .EOF, []) ∧
    DecodeFlvHeader [0x46, 0x4c] = DecodeFlvHeader [] ∧
    DecodeFlvTag byteAmf [8, 0, 0] {} = DecodeFlvTag byteAmf [] {} ∧
    (DecodeFlvTag byteAmf [8, 0, 0] {}).1 = .error .EOF ∧
    Decoder.decodeTagSize { r := [0, 0], header := sampleHeader } =
      Decoder.decodeTagSize { r := [], header := sampleHeader } ∧
    (Decoder.decodeTagSize { r := [0, 0], header := sampleHeader }).1 = .error .EOF ∧
    Decoder.Decode byteAmf { r := [0, 0], header := sampleHeader, decodedOnce := false } {} =
      Decoder.Decode byteAmf { r := [], header := sampleHeader, decodedOnce := false } {} ∧
    Decoder.Decode byteAmf { r := [8, 0, 0], header := sampleHeader, decodedOnce := true } {} =
      Decoder.Decode byteAmf { r := [], header := sampleHeader, decodedOnce := true } {} ∧
    Decoder.Decode byteAmf
        { r := streamAudioTimestamp ++ [0, 0], header := sampleHeader, decodedOnce := true } {} =
      Decoder.Decode byteAmf
        { r := streamAudioTimestamp, header := sampleHeader, decodedOnce := true } {} := by
  decide

/-- C8 (amended): when the stream holds `k` bytes with `0 ≤ k <` the required
size (9 for the header, 11 for the prologue, 4 for the tag-size field), the
read fails with `io.EOF` and the `k` bytes are consumed; the result does not
depend on `k`, so it is the same for `k = 0` and `0 < k`.  `Decode` returns
plain `io.EOF` when the short read is the prologue (on a later call, or on a
first call after a zero initial tag-size field), and `io.EOF` wrapped with
"Failed to decode tag size" when the short read is the tag-size field: the
initial one of a first call, or the one after a successfully decoded tag, on
a first call and on a later call alike.  The wrapped error differs from plain
`io.EOF`. -/
theorem short_read_fails_with_EOF {V : Type} (amf : Amf0 V) (dec : Decoder)
    (flvTag : FlvTag V) (r : List Byte) :
    (r.length < HeaderLength → DecodeFlvHeader r = (.error .EOF, [])) ∧
    (r.length < 11 → DecodeFlvTag amf r flvTag = (.error .EOF, [], flvTag)) ∧
    (dec.r.length < 4 → dec.decodeTagSize = (.error .EOF, { dec with r := [] })) ∧
    (dec.decodedOnce = false → dec.r.length < 4 →
      dec.Decode amf flvTag =
        (.error (.wrap .EOF "Failed to decode tag size"), { dec with r := [] }, flvTag)) ∧
    (dec.decodedOnce = true → dec.r.length < 11 →
      dec.Decode amf flvTag = (.error .EOF, { dec with r := [] }, flvTag)) ∧
    (dec.decodedOnce = true → ∀ (r1 : List Byte) (t1 : FlvTag V),
      DecodeFlvTag amf dec.r flvTag = (.ok (), r1, t1) → r1.length < 4 →
      dec.Decode amf flvTag =
        (.error (.wrap .EOF "Failed to decode tag size"), { dec with r := [] }, t1)) ∧
    (dec.decodedOnce = false → ∀ (z0 z1 z2 z3 : Byte) (s : List Byte),
      dec.r = z0 :: z1 :: z2 :: z3 :: s → be32 z0 z1 z2 z3 = 0 →
      (s.length < 11 →
        dec.Decode amf flvTag =
          (.error .EOF, { r := [], header := dec.header, decodedOnce := true }, flvTag)) ∧
      (∀ (r1 : List Byte) (t1 : FlvTag V),
        DecodeFlvTag amf s flvTag = (.ok (), r1, t1) → r1.length < 4 →
        dec.Decode amf flvTag =
          (.error (.wrap .EOF "Failed to decode tag size"),
            { r := [], header := dec.header, decodedOnce := true }, t1))) ∧
    Err.wrap .EOF "Failed to decode tag size" ≠ Err.EOF := by
  refine ⟨?_, ?_, ?_, ?_, ?_, ?_, ?_, ?_⟩
  · intro h
    simp [DecodeFlvHeader, CopyN, Nat.not_le.mpr h]
  · intro h
    simp [DecodeFlvTag, CopyN, Nat.not_le.mpr h]
  · intro h
    simp [Decoder.decodeTagSize, CopyN, Nat.not_le.mpr h]
  · intro ho h
    simp [Decoder.Decode, ho, Decoder.decodeTagSize, CopyN, Nat.not_le.mpr h]
  · intro ho h
    simp [Decoder.Decode, ho, Decoder.Decode.body, DecodeFlvTag, CopyN, Nat.not_le.mpr h,
      skipTagSize_eq]
  · intro ho r1 t1 hflv h
    simp [Decoder.Decode, ho, Decoder.Decode.body, hflv, Decoder.decodeTagSize, CopyN,
      Nat.not_le.mpr h]
  · intro ho z0 z1 z2 z3 s hr hz
    have hts : dec.decodeTagSize =
        (.ok 0, { r := s, header := dec.header, decodedOnce := false }) := by
      simp [Decoder.decodeTagSize, CopyN, hr, Uint32_cons4, ho, hz]
    constructor
    · intro h
      simp [Decoder.Decode, ho, hts, Decoder.Decode.body, DecodeFlvTag, CopyN,
        Nat.not_le.mpr h, skipTagSize_eq]
    · intro r1 t1 hflv h
      simp only [Decoder.Decode, ho, Bool.not_false, if_true, hts, ne_eq, not_true_eq_false,
        if_false, Decoder.Decode.body, hflv]
      simp [Decoder.decodeTagSize, CopyN, Nat.not_le.mpr h]
  · intro h
    cases h

/-- Witness for `short_read_fails_with_EOF`: a stream of 3 bytes at the header,
at the prologue and at the initial tag-size field, and a complete audio tag
followed by only 2 bytes of its tag-size field. -/
theorem short_read_fails_with_EOF_witness :
    DecodeFlvHeader [0x46, 0x4c, 0x56] = (.error .EOF, []) ∧
    DecodeFlvTag byteAmf [0x46, 0x4c, 0x56] {} = (.error .EOF, [], {}) ∧
    Decoder.Decode byteAmf { r := [8, 0, 0], header := sampleHeader, decodedOnce := false } {} =
      (.error (.wrap .EOF "Failed to decode tag size"),
        { r := [], header := sampleHeader, decodedOnce := false }, {}) ∧
    Decoder.Decode byteAmf { r := [8, 0, 0], header := sampleHeader, decodedOnce := true } {} =
      (.error .EOF, { r := [], header := sampleHeader, decodedOnce := true }, {}) ∧
    Decoder.Decode byteAmf
        { r := streamAudioTimestamp ++ [0, 0], header := sampleHeader, decodedOnce := true } {} =
      (.error (.wrap .EOF "Failed to decode tag size"),
        { r := [], header := sampleHeader, decodedOnce := true },
        { TagType := 8, Timestamp := 0x04010203, StreamID := 0,
          Data := .audio { SoundFormat := 2, Data := some 0 } }) ∧
    Decoder.Decode byteAmf
        { r := 0 :: 0 :: 0 :: 0 :: (streamAudioTimestamp ++ [0, 0]), header := sampleHeader,
          decodedOnce := false } {} =
      (.error (.wrap .EOF "Failed to decode tag size"),
        { r := [], header := sampleHeader, decodedOnce := true },
        { TagType := 8, Timestamp := 0x04010203, StreamID := 0,
          Data := .audio { SoundFormat := 2, Data := some 0 } }) :=
  ⟨(short_read_fails_with_EOF byteAmf { r := [], header := sampleHeader } {}
      [0x46, 0x4c, 0x56]).1 (by decide),
   (short_read_fails_with_EOF byteAmf { r := [], header := sampleHeader } {}
      [0x46, 0x4c, 0x56]).2.1 (by decide),
   (short_read_fails_with_EOF byteAmf
      { r := [8, 0, 0], header := sampleHeader, decodedOnce := false } {} []).2.2.2.1
      rfl (by decide),
   (short_read_fails_with_EOF byteAmf
      { r := [8, 0, 0], header := sampleHeader, decodedOnce := true } {} []).2.2.2.2.1
      rfl (by decide),
   (short_read_fails_with_EOF byteAmf
      { r := streamAudioTimestamp ++ [0, 0], header := sampleHeader, decodedOnce := true }
      {} []).2.2.2.2.2.1
      rfl [0, 0]
      { TagType := 8, Timestamp := 0x04010203, StreamID := 0,
        Data := .audio { SoundFormat := 2, Data := some 0 } }
      (by decide) (by decide),
   ((short_read_fails_with_EOF byteAmf
      { r := 0 :: 0 :: 0 :: 0 :: (streamAudioTimestamp ++ [0, 0]), header := sampleHeader,
        decodedOnce := false }
      {} []).2.2.2.2.2.2.1
      rfl 0 0 0 0 (streamAudioTimestamp ++ [0, 0]) rfl (by decide)).2 [0, 0]
      { TagType := 8, Timestamp := 0x04010203, StreamID := 0,
        Data := .audio { SoundFormat := 2, Data := some 0 } }
      (by decide) (by decide)⟩

/-! ### Audio sub-decoder -/

set_option maxRecDepth 100000 in
theorem audio_bits (b : Byte) :
    (b.val &&& 0xf0) >>> 4 = b.val >>> 4 ∧
    (b.val &&& 0x0c) >>> 2 = (b.val >>> 2) &&& 3 ∧
    (b.val &&& 0x02) >>> 1 = (b.val >>> 1) &&& 1 ∧
    b.val >>> 4 < 16 ∧ (b.val >>> 2) &&& 3 < 4 ∧ (b.val >>> 1) &&& 1 < 2 ∧ b.val &&& 1 < 2 ∧
    b.val = (b.val >>> 4) * 16 + ((b.val >>> 2) &&& 3) * 4 + ((b.val >>> 1) &&& 1) * 2
      + (b.val &&& 1) := by
  revert b
  decide

theorem LimitedReader.advance_one_R (l : LimitedReader) (b : Byte) (p : List Byte)
    (h : l.payload = b :: p) : (l.advance 1).R = l.R.drop 1 := by
  have hN : 0 < l.N := by
    rcases Nat.eq_zero_or_pos l.N with h0 | h0
    · simp [LimitedReader.payload, h0] at h
    · exact h0
  simp only [LimitedReader.advance]
  congr 1
  omega

theorem DecodeAACAudioData_ok (r : LimitedReader) (a : AACAudioData) (b : Byte)
    (p : List Byte) (h : r.payload = b :: p) :
    DecodeAACAudioData r a =
      (.ok (), r.advance 1, { AACPacketType := b.val, Data := some (r.advance 1).N }) := by
  unfold DecodeAACAudioData
  rw [(LimitedReader.CopyN_one r b p h).1]

theorem DecodeAudioData_fields (r : LimitedReader) (audioData : AudioData) (b : Byte)
    (p : List Byte) (h : r.payload = b :: p) :
    ∃ pt d, (DecodeAudioData r audioData).2.2 =
      { SoundFormat := (b.val &&& 0xf0) >>> 4, SoundRate := (b.val &&& 0x0c) >>> 2,
        SoundSize := (b.val &&& 0x02) >>> 1, SoundType := b.val &&& 0x01,
        AACPacketType := pt, Data := d } := by
  unfold DecodeAudioData
  rw [(LimitedReader.CopyN_one r b p h).1]
  simp only
  split_ifs
  · generalize DecodeAACAudioData (r.advance 1) {} = q
    obtain ⟨res, r2, a2⟩ := q
    cases res <;> exact ⟨_, _, rfl⟩
  · exact ⟨_, _, rfl⟩

/-- C9: for every non-empty audio payload with first byte `b`, `DecodeAudioData`
sets `SoundFormat = b >> 4`, `SoundRate = (b >> 2) & 3`, `SoundSize = (b >> 1) & 1`
and `SoundType = b & 1`; so `SoundFormat < 16`, `SoundRate < 4`, `SoundSize < 2`,
`SoundType < 2` and `b = SoundFormat*16 + SoundRate*4 + SoundSize*2 + SoundType`. -/
theorem DecodeAudioData_bit_fields (r : LimitedReader) (audioData : AudioData) (b : Byte)
    (p : List Byte) (h : r.payload = b :: p) :
    (DecodeAudioData r audioData).2.2.SoundFormat = b.val >>> 4 ∧
    (DecodeAudioData r audioData).2.2.SoundRate = (b.val >>> 2) &&& 3 ∧
    (DecodeAudioData r audioData).2.2.SoundSize = (b.val >>> 1) &&& 1 ∧
    (DecodeAudioData r audioData).2.2.SoundType = b.val &&& 1 ∧
    (DecodeAudioData r audioData).2.2.SoundFormat < 16 ∧
    (DecodeAudioData r audioData).2.2.SoundRate < 4 ∧
    (DecodeAudioData r audioData).2.2.SoundSize < 2 ∧
    (DecodeAudioData r audioData).2.2.SoundType < 2 ∧
    b.val = (DecodeAudioData r audioData).2.2.SoundFormat * 16
      + (DecodeAudioData r audioData).2.2.SoundRate * 4
      + (DecodeAudioData r audioData).2.2.SoundSize * 2
      + (DecodeAudioData r audioData).2.2.SoundType := by
  obtain ⟨pt, d, hf⟩ := DecodeAudioData_fields r audioData b p h
  obtain ⟨e1, e2, e3, l1, l2, l3, l4, hsum⟩ := audio_bits b
  rw [hf]
  simp only [e1, e2, e3, true_and]
  exact ⟨l1, l2, l3, l4, hsum⟩

/-- Witness for `DecodeAudioData_bit_fields`: first payload byte `0x2f`
(format 2, rate 3, size 1, type 1). -/
theorem DecodeAudioData_bit_fields_witness :
    (DecodeAudioData { R := payloadMP3, N := 4 } {}).2.2.SoundFormat = 2 ∧
    (DecodeAudioData { R := payloadMP3, N := 4 } {}).2.2.SoundRate = 3 ∧
    (DecodeAudioData { R := payloadMP3, N := 4 } {}).2.2.SoundSize = 1 ∧
    (DecodeAudioData { R := payloadMP3, N := 4 } {}).2.2.SoundType = 1 :=
  have h := DecodeAudioData_bit_fields { R := payloadMP3, N := 4 } {} 0x2f [0x11, 0x22, 0x33] rfl
  ⟨h.1, h.2.1, h.2.2.1, h.2.2.2.1⟩

/-- C10: for an audio payload `d0 d1 ...`: when the format nibble `d0 >> 4` is
not the AAC code, `DecodeAudioData` succeeds having consumed exactly 1 byte and
the returned `Data` stream yields `d1, d2, ...`; when it is the AAC code and
`d1` exists, it succeeds having consumed exactly 2 bytes, `AACPacketType = d1`
and `Data` yields `d2, d3, ...`. -/
theorem DecodeAudioData_data_stream (r : LimitedReader) (audioData : AudioData) (d0 : Byte)
    (p : List Byte) (h : r.payload = d0 :: p) :
    (d0.val >>> 4 ≠ SoundFormatAAC →
      (DecodeAudioData r audioData).1 = .ok () ∧
      (DecodeAudioData r audioData).2.1 = r.advance 1 ∧
      (r.advance 1).R = r.R.drop 1 ∧
      (DecodeAudioData r audioData).2.2.Data = some (r.advance 1).N ∧
      (r.advance 1).payload = p) ∧
    (d0.val >>> 4 = SoundFormatAAC → ∀ (d1 : Byte) (p' : List Byte), p = d1 :: p' →
      (DecodeAudioData r audioData).1 = .ok () ∧
      (DecodeAudioData r audioData).2.1 = r.advance 2 ∧
      (r.advance 2).R = r.R.drop 2 ∧
      (DecodeAudioData r audioData).2.2.AACPacketType = d1.val ∧
      (DecodeAudioData r audioData).2.2.Data = some (r.advance 2).N ∧
      (r.advance 2).payload = p') := by
  obtain ⟨hc, hp⟩ := LimitedReader.CopyN_one r d0 p h
  have hR := LimitedReader.advance_one_R r d0 p h
  have e1 := (audio_bits d0).1
  constructor
  · intro hne
    have hne' : ¬ (d0.val &&& 0xf0) >>> 4 = SoundFormatAAC := by rw [e1]; exact hne
    unfold DecodeAudioData
    rw [hc]
    simp only [hne', if_false, true_and]
    exact ⟨hR, hp⟩
  · intro heq d1 p' hp'
    have heq' : (d0.val &&& 0xf0) >>> 4 = SoundFormatAAC := by rw [e1]; exact heq
    have hp1 : (r.advance 1).payload = d1 :: p' := by rw [hp, hp']
    have haac := DecodeAACAudioData_ok (r.advance 1) {} d1 p' hp1
    have hc2 := LimitedReader.CopyN_one (r.advance 1) d1 p' hp1
    have hR2 := LimitedReader.advance_one_R (r.advance 1) d1 p' hp1
    rw [LimitedReader.advance_advance] at haac hc2 hR2
    unfold DecodeAudioData
    rw [hc]
    simp only [heq', if_true, haac, true_and]
    refine ⟨?_, hc2.2⟩
    rw [hR2, hR, List.drop_drop]

/-- Witness for `DecodeAudioData_data_stream`: the AAC payload `af 01 21 10`;
two bytes are consumed, the packet type is 1 and `Data` yields `21 10`. -/
theorem DecodeAudioData_data_stream_witness :
    (DecodeAudioData { R := payloadAAC, N := 4 } {}).1 = .ok () ∧
    (DecodeAudioData { R := payloadAAC, N := 4 } {}).2.1 =
      LimitedReader.advance { R := payloadAAC, N := 4 } 2 ∧
    (LimitedReader.advance { R := payloadAAC, N := 4 } 2).R = payloadAAC.drop 2 ∧
    (DecodeAudioData { R := payloadAAC, N := 4 } {}).2.2.AACPacketType = 1 ∧
    (DecodeAudioData { R := payloadAAC, N := 4 } {}).2.2.Data =
      some (LimitedReader.advance { R := payloadAAC, N := 4 } 2).N ∧
    (LimitedReader.advance { R := payloadAAC, N := 4 } 2).payload = [0x21, 0x10] :=
  (DecodeAudioData_data_stream { R := payloadAAC, N := 4 } {} 0xaf [1, 0x21, 0x10] rfl).2
    (by decide) 1 [0x21, 0x10] rfl

/-! ### End of the payload inside an inner header -/

theorem wrapEOF_EOF : wrapEOF .EOF = .ErrUnexpectedEOF := by
  simp [wrapEOF]

/-- C11: on an audio payload of exactly one byte whose format nibble is the
AAC code, `DecodeAudioData` fails with `io.ErrUnexpectedEOF`, which differs
from the `io.EOF` it returns on an empty payload; `DecodeVideoData` on a
payload whose codec nibble is AVC followed by fewer than 4 bytes fails with
`io.ErrUnexpectedEOF` as well. -/
theorem inner_header_EOF_is_unexpected (r : LimitedReader) (audioData : AudioData)
    (videoData : VideoData) :
    (∀ d0 : Byte, r.payload = [d0] → d0.val >>> 4 = SoundFormatAAC →
      (DecodeAudioData r audioData).1 = .error .ErrUnexpectedEOF) ∧
    (r.payload = [] → (DecodeAudioData r audioData).1 = .error .EOF) ∧
    Err.ErrUnexpectedEOF ≠ Err.EOF ∧
    (∀ (b : Byte) (p : List Byte), r.payload = b :: p → b.val &&& 0x0f = CodecIDAVC →
      p.length < 4 → (DecodeVideoData r videoData).1 = .error .ErrUnexpectedEOF) := by
  refine ⟨?_, ?_, by decide, ?_⟩
  · intro d0 h hf
    obtain ⟨hc, hp⟩ := LimitedReader.CopyN_one r d0 [] h
    have hf' : (d0.val &&& 0xf0) >>> 4 = SoundFormatAAC := by rw [(audio_bits d0).1]; exact hf
    have hfail := LimitedReader.CopyN_fail (r.advance 1) 1 (by rw [hp]; decide)
    unfold DecodeAudioData
    rw [hc]
    simp only [hf', if_true, DecodeAACAudioData, hfail, wrapEOF_EOF]
  · intro h
    have hfail := LimitedReader.CopyN_fail r 1 (by rw [h]; decide)
    unfold DecodeAudioData
    rw [hfail]
  · intro b p h hcodec hlen
    obtain ⟨hc, hp⟩ := LimitedReader.CopyN_one r b p h
    have hfail := LimitedReader.CopyN_fail (r.advance 1) 4 (by rw [hp]; exact hlen)
    unfold DecodeVideoData
    rw [hc]
    simp only [hcodec, if_true, DecodeAVCVideoPacket, hfail, wrapEOF_EOF]

/-- Witness for `inner_header_EOF_is_unexpected`: the one-byte AAC payload
`af`, and the AVC payload `17 01 ff` cut inside the inner header. -/
theorem inner_header_EOF_is_unexpected_witness :
    (DecodeAudioData { R := [0xaf, 0, 0, 0, 12], N := 1 } {}).1 = .error .ErrUnexpectedEOF ∧
    (DecodeVideoData { R := [0x17, 1, 0xff], N := 3 } {}).1 = .error .ErrUnexpectedEOF :=
  ⟨(inner_header_EOF_is_unexpected { R := [0xaf, 0, 0, 0, 12], N := 1 } {} {}).1
      0xaf rfl (by decide),
   (inner_header_EOF_is_unexpected { R := [0x17, 1, 0xff], N := 3 } {} {}).2.2.2
      0x17 [1, 0xff] rfl (by decide) (by decide)⟩

/-! ### Video sub-decoder -/

set_option maxRecDepth 100000 in
theorem video_bits (b : Byte) :
    b.val &&& 0x0f < 16 ∧ b.val = (b.val >>> 4) * 16 + (b.val &&& 0x0f) := by
  revert b
  decide

theorem DecodeVideoData_fields (r : LimitedReader) (videoData : VideoData) (b : Byte)
    (p : List Byte) (h : r.payload = b :: p) :
    ∃ pt ct d, (DecodeVideoData r videoData).2.2 =
      { FrameType := (b.val &&& 0xf0) >>> 4, CodecID := b.val &&& 0x0f,
        AVCPacketType := pt, CompositionTime := ct, Data := d } := by
  unfold DecodeVideoData
  rw [(LimitedReader.CopyN_one r b p h).1]
  simp only
  split_ifs
  · generalize DecodeAVCVideoPacket (r.advance 1) {} = q
    obtain ⟨res, r2, a2⟩ := q
    cases res <;> exact ⟨_, _, _, rfl⟩
  · exact ⟨_, _, _, rfl⟩

/-- C12: for every non-empty video payload with first byte `b`,
`DecodeVideoData` sets `FrameType = b >> 4` and `CodecID = b & 0x0f`, so
`b = FrameType*16 + CodecID`; when `CodecID` is not the AVC code it succeeds
having consumed exactly 1 byte, and `Data` yields the payload from index 1 on. -/
theorem DecodeVideoData_bit_fields (r : LimitedReader) (videoData : VideoData) (b : Byte)
    (p : List Byte) (h : r.payload = b :: p) :
    (DecodeVideoData r videoData).2.2.FrameType = b.val >>> 4 ∧
    (DecodeVideoData r videoData).2.2.CodecID = b.val &&& 0x0f ∧
    b.val = (DecodeVideoData r videoData).2.2.FrameType * 16
      + (DecodeVideoData r videoData).2.2.CodecID ∧
    (b.val &&& 0x0f ≠ CodecIDAVC →
      (DecodeVideoData r videoData).1 = .ok () ∧
      (DecodeVideoData r videoData).2.1 = r.advance 1 ∧
      (r.advance 1).R = r.R.drop 1 ∧
      (DecodeVideoData r videoData).2.2.Data = some (r.advance 1).N ∧
      (r.advance 1).payload = p) := by
  obtain ⟨pt, ct, d, hf⟩ := DecodeVideoData_fields r videoData b p h
  obtain ⟨hc, hp⟩ := LimitedReader.CopyN_one r b p h
  have hR := LimitedReader.advance_one_R r b p h
  have e1 := (audio_bits b).1
  have hsum := (video_bits b).2
  refine ⟨?_, ?_, ?_, ?_⟩
  · rw [hf]; exact e1
  · rw [hf]
  · rw [hf]
    simp only [e1]
    exact hsum
  · intro hne
    unfold DecodeVideoData
    rw [hc]
    simp only [hne, if_false, true_and]
    exact ⟨hR, hp⟩

/-- Witness for `DecodeVideoData_bit_fields`: the payload `22 0a 0b 0c`
(frame type 2, codec 2). -/
theorem DecodeVideoData_bit_fields_witness :
    (DecodeVideoData { R := payloadH263, N := 4 } {}).2.2.FrameType = 2 ∧
    (DecodeVideoData { R := payloadH263, N := 4 } {}).2.2.CodecID = 2 ∧
    (DecodeVideoData { R := payloadH263, N := 4 } {}).1 = .ok () ∧
    (LimitedReader.advance { R := payloadH263, N := 4 } 1).payload = [0x0a, 0x0b, 0x0c] :=
  have h := DecodeVideoData_bit_fields { R := payloadH263, N := 4 } {} 0x22 [0x0a, 0x0b, 0x0c] rfl
  ⟨h.1, h.2.1, (h.2.2.2 (by decide)).1, (h.2.2.2 (by decide)).2.2.2.2⟩

/-! ### Dispatch on the tag type -/

/-- A wrapped error is never the unsupported-tag-type error. -/
theorem unsupported_ne_wrap (t : Nat) (e : Err) (msg : String) :
    Err.wrap e msg ≠ Err.unsupportedTagType t := by
  intro h; cases h

/-- `DecodeFlvTag` on a complete prologue with a supported type never returns
the unsupported-tag-type error, and on a complete prologue it returns the tag
built from the prologue with a nil `Data` whenever it returns an error. -/
theorem DecodeFlvTag_error_shape {V : Type} (amf : Amf0 V) (flvTag : FlvTag V)
    (b0 b1 b2 b3 b4 b5 b6 b7 b8 b9 b10 : Byte) (rest : List Byte)
    (e : Err) (r1 : List Byte) (t1 : FlvTag V)
    (h : DecodeFlvTag amf
        (b0 :: b1 :: b2 :: b3 :: b4 :: b5 :: b6 :: b7 :: b8 :: b9 :: b10 :: rest) flvTag
      = (.error e, r1, t1)) :
    t1 = { TagType := b0.val,
           Timestamp := (b4.val <<< 16) ||| (b5.val <<< 8) ||| b6.val ||| (b7.val <<< 24),
           StreamID := (b8.val <<< 16) ||| (b9.val <<< 8) ||| b10.val,
           Data := .nil } ∧
    ((∃ t, e = .unsupportedTagType t) →
      b0.val ≠ TagTypeAudio ∧ b0.val ≠ TagTypeVideo ∧ b0.val ≠ TagTypeScriptData) := by
  simp only [DecodeFlvTag, CopyN, List.length_cons, Nat.le_add_left, if_true,
    List.take_succ_cons, List.take_zero, List.drop_succ_cons, List.drop_zero] at h
  split_ifs at h with h1 h2 h3
  · generalize DecodeAudioData _ _ = q at h
    obtain ⟨res, lr1, v⟩ := q
    cases res <;> simp only [Prod.mk.injEq, Result.error.injEq, reduceCtorEq, false_and] at h
    obtain ⟨rfl, -, rfl⟩ := h
    exact ⟨rfl, fun ⟨t, ht⟩ => absurd ht (unsupported_ne_wrap _ _ _)⟩
  · generalize DecodeVideoData _ _ = q at h
    obtain ⟨res, lr1, v⟩ := q
    cases res <;> simp only [Prod.mk.injEq, Result.error.injEq, reduceCtorEq, false_and] at h
    obtain ⟨rfl, -, rfl⟩ := h
    exact ⟨rfl, fun ⟨t, ht⟩ => absurd ht (unsupported_ne_wrap _ _ _)⟩
  · generalize DecodeScriptData amf _ _ = q at h
    obtain ⟨res, lr1, v⟩ := q
    cases res <;> simp only [Prod.mk.injEq, Result.error.injEq, reduceCtorEq, false_and] at h
    obtain ⟨rfl, -, rfl⟩ := h
    exact ⟨rfl, fun ⟨t, ht⟩ => absurd ht (unsupported_ne_wrap _ _ _)⟩
  · simp only [Prod.mk.injEq, Result.error.injEq] at h
    obtain ⟨rfl, -, rfl⟩ := h
    exact ⟨rfl, fun _ => ⟨h1, h2, h3⟩⟩

/-- On a complete prologue whose type is none of the three codes, the result of
`DecodeFlvTag` is fixed by the prologue alone. -/
theorem DecodeFlvTag_unsupported {V : Type} (amf : Amf0 V) (flvTag : FlvTag V)
    (b0 b1 b2 b3 b4 b5 b6 b7 b8 b9 b10 : Byte) (rest : List Byte)
    (h1 : b0.val ≠ TagTypeAudio) (h2 : b0.val ≠ TagTypeVideo)
    (h3 : b0.val ≠ TagTypeScriptData) :
    DecodeFlvTag amf
        (b0 :: b1 :: b2 :: b3 :: b4 :: b5 :: b6 :: b7 :: b8 :: b9 :: b10 :: rest) flvTag
      = (.error (.unsupportedTagType b0.val), rest.drop (be24 b1 b2 b3),
          { TagType := b0.val,
            Timestamp := (b4.val <<< 16) ||| (b5.val <<< 8) ||| b6.val ||| (b7.val <<< 24),
            StreamID := (b8.val <<< 16) ||| (b9.val <<< 8) ||| b10.val,
            Data := .nil }) := by
  simp only [DecodeFlvTag, CopyN, List.length_cons, Nat.le_add_left, if_true,
    List.take_succ_cons, List.take_zero, List.drop_succ_cons, List.drop_zero, h1, h2, h3,
    if_false, LimitedReader.discard_R, or3_eq_be24]

/-- C13: on a stream that holds a complete prologue `b0..b10`, `DecodeFlvTag`
fails with the unsupported-tag-type error exactly when `b0` is none of
`TagTypeAudio` (8), `TagTypeVideo` (9), `TagTypeScriptData` (18); for such a
tag the result is fixed by the prologue alone (the declared payload is
skipped, the tag has a nil `Data`), whatever the value decoder and the payload
bytes are: no sub-decoder is run. -/
theorem DecodeFlvTag_unsupported_iff {V : Type} (amf : Amf0 V) (flvTag : FlvTag V)
    (b0 b1 b2 b3 b4 b5 b6 b7 b8 b9 b10 : Byte) (rest : List Byte) :
    ((∃ t, (DecodeFlvTag amf
          (b0 :: b1 :: b2 :: b3 :: b4 :: b5 :: b6 :: b7 :: b8 :: b9 :: b10 :: rest) flvTag).1
        = .error (.unsupportedTagType t)) ↔
      (b0.val ≠ TagTypeAudio ∧ b0.val ≠ TagTypeVideo ∧ b0.val ≠ TagTypeScriptData)) ∧
    ((b0.val ≠ TagTypeAudio ∧ b0.val ≠ TagTypeVideo ∧ b0.val ≠ TagTypeScriptData) →
      DecodeFlvTag amf
          (b0 :: b1 :: b2 :: b3 :: b4 :: b5 :: b6 :: b7 :: b8 :: b9 :: b10 :: rest) flvTag
        = (.error (.unsupportedTagType b0.val), rest.drop (be24 b1 b2 b3),
            { TagType := b0.val,
              Timestamp := (b4.val <<< 16) ||| (b5.val <<< 8) ||| b6.val ||| (b7.val <<< 24),
              StreamID := (b8.val <<< 16) ||| (b9.val <<< 8) ||| b10.val,
              Data := .nil })) ∧
    TagTypeAudio = 8 ∧ TagTypeVideo = 9 ∧ TagTypeScriptData = 18 := by
  refine ⟨⟨?_, ?_⟩, ?_, rfl, rfl, rfl⟩
  · rintro ⟨t, ht⟩
    generalize hq : DecodeFlvTag amf
      (b0 :: b1 :: b2 :: b3 :: b4 :: b5 :: b6 :: b7 :: b8 :: b9 :: b10 :: rest) flvTag = q at ht
    obtain ⟨res, r1, t1⟩ := q
    simp only at ht
    subst ht
    exact (DecodeFlvTag_error_shape amf flvTag b0 b1 b2 b3 b4 b5 b6 b7 b8 b9 b10 rest _ r1 t1
      hq).2 ⟨t, rfl⟩
  · rintro ⟨h1, h2, h3⟩
    exact ⟨b0.val, by
      rw [DecodeFlvTag_unsupported amf flvTag b0 b1 b2 b3 b4 b5 b6 b7 b8 b9 b10 rest h1 h2 h3]⟩
  · rintro ⟨h1, h2, h3⟩
    exact DecodeFlvTag_unsupported amf flvTag b0 b1 b2 b3 b4 b5 b6 b7 b8 b9 b10 rest h1 h2 h3

/-- Witness for `DecodeFlvTag_unsupported_iff`: a tag of type 5 with declared
payload length 2. -/
theorem DecodeFlvTag_unsupported_iff_witness :
    DecodeFlvTag byteAmf streamUnsupported {} =
      (.error (.unsupportedTagType 5), [0xcc],
        { TagType := 5, Timestamp := 0, StreamID := 1, Data := .nil }) :=
  (DecodeFlvTag_unsupported_iff byteAmf {} 5 0 0 2 0 0 0 0 0 0 1 [0xaa, 0xbb, 0xcc]).2.1
    (by decide)

/-! ### The caller's tag on failure -/

/-- C20: when fewer than 11 bytes are available `DecodeFlvTag` fails and leaves
the caller's tag unchanged; when the 11-byte prologue `b0..b10` was read and an
error is returned (body decode failure or unsupported type), the caller's tag
has been overwritten with the prologue's `TagType`, `Timestamp` and
`StreamID` and a nil `Data`, whatever it held before. -/
theorem DecodeFlvTag_tag_on_failure {V : Type} (amf : Amf0 V) (flvTag : FlvTag V) :
    (∀ r : List Byte, r.length < 11 →
      (DecodeFlvTag amf r flvTag).1 = .error .EOF ∧ (DecodeFlvTag amf r flvTag).2.2 = flvTag) ∧
    (∀ (b0 b1 b2 b3 b4 b5 b6 b7 b8 b9 b10 : Byte) (rest : List Byte) (e : Err)
        (r1 : List Byte) (t1 : FlvTag V),
      DecodeFlvTag amf
          (b0 :: b1 :: b2 :: b3 :: b4 :: b5 :: b6 :: b7 :: b8 :: b9 :: b10 :: rest) flvTag
        = (.error e, r1, t1) →
      t1 = { TagType := b0.val,
             Timestamp := (b4.val <<< 16) ||| (b5.val <<< 8) ||| b6.val ||| (b7.val <<< 24),
             StreamID := (b8.val <<< 16) ||| (b9.val <<< 8) ||| b10.val,
             Data := .nil }) := by
  constructor
  · intro r h
    simp [DecodeFlvTag, CopyN, Nat.not_le.mpr h]
  · intro b0 b1 b2 b3 b4 b5 b6 b7 b8 b9 b10 rest e r1 t1 h
    exact (DecodeFlvTag_error_shape amf flvTag b0 b1 b2 b3 b4 b5 b6 b7 b8 b9 b10 rest e r1 t1
      h).1

/-- Witness for `DecodeFlvTag_tag_on_failure`: a caller's tag with contents is
kept on a 3-byte stream and overwritten on a complete prologue of the
unsupported type 5. -/
theorem DecodeFlvTag_tag_on_failure_witness :
    (DecodeFlvTag byteAmf [8, 0, 0] tagBefore).2.2 = tagBefore ∧
    (DecodeFlvTag byteAmf streamUnsupported tagBefore).2.2 =
      { TagType := 5, Timestamp := 0, StreamID := 1, Data := .nil } :=
  ⟨((DecodeFlvTag_tag_on_failure byteAmf tagBefore).1 [8, 0, 0] (by decide)).2,
   (DecodeFlvTag_tag_on_failure byteAmf tagBefore).2 5 0 0 2 0 0 0 0 0 0 1
      [0xaa, 0xbb, 0xcc] (.unsupportedTagType 5) [0xcc]
      (DecodeFlvTag byteAmf streamUnsupported tagBefore).2.2 (by decide)⟩

/-! ### Bound on the bytes a tag consumes -/

theorem DecodeFlvTag_stream_advance {V : Type} (amf : Amf0 V) (flvTag : FlvTag V)
    (b0 b1 b2 b3 b4 b5 b6 b7 b8 b9 b10 : Byte) (rest : List Byte) :
    ∃ j, (DecodeFlvTag amf
        (b0 :: b1 :: b2 :: b3 :: b4 :: b5 :: b6 :: b7 :: b8 :: b9 :: b10 :: rest) flvTag).2.1
      = (LimitedReader.advance
          { R := rest, N := (b1.val <<< 16) ||| (b2.val <<< 8) ||| b3.val } j).R := by
  simp only [DecodeFlvTag, CopyN, List.length_cons, Nat.le_add_left, if_true,
    List.take_succ_cons, List.take_zero, List.drop_succ_cons, List.drop_zero]
  generalize (b1.val <<< 16) ||| (b2.val <<< 8) ||| b3.val = L
  have hL : rest.drop L = (LimitedReader.advance { R := rest, N := L } L).R := by
    simp [LimitedReader.advance]
  split_ifs
  · obtain ⟨j, hj⟩ := DecodeAudioData_reader { R := rest, N := L } {}
    generalize DecodeAudioData { R := rest, N := L } {} = q at hj ⊢
    obtain ⟨res, lr1, v⟩ := q
    simp only at hj
    subst hj
    cases res
    · exact ⟨j, rfl⟩
    · exact ⟨L, by simp only [LimitedReader.discard_advance_R]; exact hL⟩
    · exact ⟨j, rfl⟩
  · obtain ⟨j, hj⟩ := DecodeVideoData_reader { R := rest, N := L } {}
    generalize DecodeVideoData { R := rest, N := L } {} = q at hj ⊢
    obtain ⟨res, lr1, v⟩ := q
    simp only at hj
    subst hj
    cases res
    · exact ⟨j, rfl⟩
    · exact ⟨L, by simp only [LimitedReader.discard_advance_R]; exact hL⟩
    · exact ⟨j, rfl⟩
  · obtain ⟨j, hj⟩ := DecodeScriptData_reader amf { R := rest, N := L } {}
    generalize DecodeScriptData amf { R := rest, N := L } {} = q at hj ⊢
    obtain ⟨res, lr1, v⟩ := q
    simp only at hj
    subst hj
    cases res
    · exact ⟨j, rfl⟩
    · exact ⟨L, by simp only [LimitedReader.discard_advance_R]; exact hL⟩
    · exact ⟨j, rfl⟩
  · exact ⟨L, by simp only [LimitedReader.discard_R]; exact hL⟩

/-- C16: for every complete prologue `b0..b10` and every stream after it, the
payload bound of `DecodeFlvTag` is `L = b1<<16 | b2<<8 | b3`, which is below
`2^24`; `StreamID = b8<<16 | b9<<8 | b10`; and whatever the outcome (success,
error after the drain, or panic) the stream left behind is the one after the
prologue with `k ≤ L` bytes dropped: at most `11 + L` bytes are consumed. -/
theorem DecodeFlvTag_consumption_bound {V : Type} (amf : Amf0 V) (flvTag : FlvTag V)
    (b0 b1 b2 b3 b4 b5 b6 b7 b8 b9 b10 : Byte) (rest : List Byte) :
    (b1.val <<< 16) ||| (b2.val <<< 8) ||| b3.val = be24 b1 b2 b3 ∧
    be24 b1 b2 b3 < 2 ^ 24 ∧
    (DecodeFlvTag amf
        (b0 :: b1 :: b2 :: b3 :: b4 :: b5 :: b6 :: b7 :: b8 :: b9 :: b10 :: rest)
        flvTag).2.2.StreamID = (b8.val <<< 16) ||| (b9.val <<< 8) ||| b10.val ∧
    (∃ j, (DecodeFlvTag amf
        (b0 :: b1 :: b2 :: b3 :: b4 :: b5 :: b6 :: b7 :: b8 :: b9 :: b10 :: rest) flvTag).2.1
      = (LimitedReader.advance
          { R := rest, N := (b1.val <<< 16) ||| (b2.val <<< 8) ||| b3.val } j).R) ∧
    (∃ k, k ≤ be24 b1 b2 b3 ∧
      (DecodeFlvTag amf
        (b0 :: b1 :: b2 :: b3 :: b4 :: b5 :: b6 :: b7 :: b8 :: b9 :: b10 :: rest) flvTag).2.1
      = (b0 :: b1 :: b2 :: b3 :: b4 :: b5 :: b6 :: b7 :: b8 :: b9 :: b10 :: rest).drop (11 + k) ∧
      (b0 :: b1 :: b2 :: b3 :: b4 :: b5 :: b6 :: b7 :: b8 :: b9 :: b10 :: rest).length
        ≤ (DecodeFlvTag amf
            (b0 :: b1 :: b2 :: b3 :: b4 :: b5 :: b6 :: b7 :: b8 :: b9 :: b10 :: rest)
            flvTag).2.1.length + (11 + be24 b1 b2 b3)) := by
  have h1 := b1.isLt
  have h2 := b2.isLt
  have h3 := b3.isLt
  obtain ⟨j, hj⟩ := DecodeFlvTag_stream_advance amf flvTag b0 b1 b2 b3 b4 b5 b6 b7 b8 b9 b10 rest
  refine ⟨or3_eq_be24 b1 b2 b3, by unfold be24; omega,
    (DecodeFlvTag_fields amf flvTag b0 b1 b2 b3 b4 b5 b6 b7 b8 b9 b10 rest).2.2, ⟨j, hj⟩, ?_⟩
  rw [or3_eq_be24] at hj
  refine ⟨min j (be24 b1 b2 b3), Nat.min_le_right _ _, ?_, ?_⟩
  · rw [hj, ← List.drop_drop]
    rfl
  · rw [hj]
    simp only [LimitedReader.advance, List.length_drop, List.length_cons]
    omega

/-! ### Panics -/

theorem DecodeAACAudioData_no_panic (r : LimitedReader) (a : AACAudioData) :
    (DecodeAACAudioData r a).1.isPanic = false := by
  cases hp : r.payload with
  | nil =>
    have hfail := LimitedReader.CopyN_fail r 1 (by rw [hp]; decide)
    unfold DecodeAACAudioData
    rw [hfail]; rfl
  | cons b p =>
    rw [DecodeAACAudioData_ok r a b p hp]; rfl

theorem DecodeAudioData_no_panic (r : LimitedReader) (a : AudioData) :
    (DecodeAudioData r a).1.isPanic = false := by
  cases hp : r.payload with
  | nil =>
    have hfail := LimitedReader.CopyN_fail r 1 (by rw [hp]; decide)
    unfold DecodeAudioData
    rw [hfail]; rfl
  | cons b p =>
    unfold DecodeAudioData
    rw [(LimitedReader.CopyN_one r b p hp).1]
    simp only
    split_ifs
    · have h2 := DecodeAACAudioData_no_panic (r.advance 1) {}
      generalize DecodeAACAudioData (r.advance 1) {} = q at h2 ⊢
      obtain ⟨res, r2, a2⟩ := q
      cases res
      · rfl
      · rfl
      · simp [Result.isPanic] at h2
    · rfl

theorem DecodeFlvHeader_no_panic (r : List Byte) : (DecodeFlvHeader r).1.isPanic = false := by
  by_cases hl : HeaderLength ≤ r.length
  · unfold HeaderLength at hl
    match r, hl with
    | a0 :: a1 :: a2 :: a3 :: a4 :: a5 :: a6 :: a7 :: a8 :: rest, _ =>
      simp only [DecodeFlvHeader, CopyN, HeaderLength, List.length_cons, Nat.le_add_left, if_true,
        List.take_succ_cons, List.take_zero, List.drop_succ_cons, List.drop_zero,
        List.get?_cons_succ, List.get?_cons_zero, Uint32_cons4]
      split_ifs <;> rfl
  · simp [DecodeFlvHeader, CopyN, hl, Result.isPanic]

theorem DecodeAVCVideoPacket_panic_of_four (r : LimitedReader) (p : AVCVideoPacket)
    (h : 4 ≤ r.payload.length) : (DecodeAVCVideoPacket r p).1 = .panic := by
  unfold DecodeAVCVideoPacket LimitedReader.CopyN
  have hu : Uint32 (List.drop 1 (List.take 4 r.payload)) = none :=
    Uint32_short _ (by simp; omega)
  simp only [h, if_true, hu]
  split
  · simp_all
  · rfl

/-- C17: `DecodeFlvHeader`, `DecodeAACAudioData` and `DecodeAudioData` return a
value or an error on every input.  `DecodeAVCVideoPacket` does not: whenever 4
bytes are available it panics, because `binary.BigEndian.Uint32` reads index 3
of the 3-byte slice `buffer.Bytes()[1:]`; the panic goes up through
`DecodeVideoData` and `DecodeFlvTag`, here on the AVC payload
`17 01 ff ff ff aa` and on a video tag carrying it. -/
theorem decoders_panic_on_AVC_only :
    (∀ r : List Byte, (DecodeFlvHeader r).1.isPanic = false) ∧
    (∀ (r : LimitedReader) (a : AACAudioData), (DecodeAACAudioData r a).1.isPanic = false) ∧
    (∀ (r : LimitedReader) (a : AudioData), (DecodeAudioData r a).1.isPanic = false) ∧
    (∀ (r : LimitedReader) (p : AVCVideoPacket), 4 ≤ r.payload.length →
      (DecodeAVCVideoPacket r p).1 = .panic) ∧
    (DecodeAVCVideoPacket { R := payloadAVC.drop 1, N := 5 } {}).1 = .panic ∧
    (DecodeVideoData { R := payloadAVC, N := 6 } {}).1 = .panic ∧
    (DecodeFlvTag byteAmf streamVideoAVC {}).1 = .panic :=
  ⟨DecodeFlvHeader_no_panic, DecodeAACAudioData_no_panic, DecodeAudioData_no_panic,
    DecodeAVCVideoPacket_panic_of_four, by decide, by decide, by decide⟩

/-! ### NewDecoder -/

theorem DecodeFlvHeader_valid (v f o0 o1 o2 o3 : Byte) (rest : List Byte) :
    ∃ flags, DecodeFlvHeader (0x46 :: 0x4c :: 0x56 :: v :: f :: o0 :: o1 :: o2 :: o3 :: rest)
      = (.ok { Version := v.val, Flags := flags, DataOffset := be32 o0 o1 o2 o3 }, rest) := by
  simp only [DecodeFlvHeader, CopyN, HeaderLength, List.length_cons, Nat.le_add_left, if_true,
    List.take_succ_cons, List.take_zero, List.drop_succ_cons, List.drop_zero,
    List.get?_cons_succ, List.get?_cons_zero, Uint32_cons4, HeaderSignature, ne_eq,
    not_true_eq_false, if_false]
  split_ifs <;> exact ⟨_, rfl⟩

/-- C14: on a stream that begins with a 9-byte header with valid signature and
data offset `d` (big-endian value of bytes 5..8): when the stream holds at
least `max d 9` bytes, `NewDecoder` succeeds, `Header().DataOffset = d` and the
cursor is at offset `max d 9`; when `d > 9` and the stream holds fewer than `d`
bytes, `NewDecoder` fails and returns no decoder. -/
theorem NewDecoder_data_offset (v f o0 o1 o2 o3 : Byte) (rest : List Byte) :
    (max (be32 o0 o1 o2 o3) 9
        ≤ (0x46 :: 0x4c :: 0x56 :: v :: f :: o0 :: o1 :: o2 :: o3 :: rest).length →
      ∃ dec, NewDecoder (0x46 :: 0x4c :: 0x56 :: v :: f :: o0 :: o1 :: o2 :: o3 :: rest)
          = (.ok dec,
              (0x46 :: 0x4c :: 0x56 :: v :: f :: o0 :: o1 :: o2 :: o3 :: rest).drop
                (max (be32 o0 o1 o2 o3) 9)) ∧
        dec.r = (0x46 :: 0x4c :: 0x56 :: v :: f :: o0 :: o1 :: o2 :: o3 :: rest).drop
                (max (be32 o0 o1 o2 o3) 9) ∧
        dec.Header.DataOffset = be32 o0 o1 o2 o3 ∧
        dec.decodedOnce = false) ∧
    (9 < be32 o0 o1 o2 o3 →
      (0x46 :: 0x4c :: 0x56 :: v :: f :: o0 :: o1 :: o2 :: o3 :: rest).length
        < be32 o0 o1 o2 o3 →
      NewDecoder (0x46 :: 0x4c :: 0x56 :: v :: f :: o0 :: o1 :: o2 :: o3 :: rest)
        = (.error .EOF, [])) := by
  obtain ⟨flags, hh⟩ := DecodeFlvHeader_valid v f o0 o1 o2 o3 rest
  generalize be32 o0 o1 o2 o3 = d at hh ⊢
  constructor
  · intro hlen
    simp only [List.length_cons] at hlen
    by_cases hd : d > HeaderLength
    · have hd9 : 9 < d := hd
      have hle : d - HeaderLength ≤ rest.length := by unfold HeaderLength; omega
      have hmax : max d 9 = 9 + (d - 9) := by omega
      refine ⟨{ r := rest.drop (d - 9),
                header := { Version := v.val, Flags := flags, DataOffset := d } },
        ?_, ?_, rfl, rfl⟩
      · simp only [NewDecoder, hh, hd, if_true, CopyN, hle, hmax, ← List.drop_drop]
        rfl
      · rw [hmax, ← List.drop_drop]
        rfl
    · have hd9 : d ≤ 9 := Nat.not_lt.mp hd
      have hmax : max d 9 = 9 := by omega
      refine ⟨{ r := rest, header := { Version := v.val, Flags := flags, DataOffset := d } },
        ?_, ?_, rfl, rfl⟩
      · simp only [NewDecoder, hh, hd, if_false, hmax]
        rfl
      · rw [hmax]
        rfl
  · intro hd hlen
    simp only [List.length_cons] at hlen
    have hd' : d > HeaderLength := hd
    have hle : ¬ d - HeaderLength ≤ rest.length := by unfold HeaderLength; omega
    simp only [NewDecoder, hh, hd', if_true, CopyN, hle, if_false]

/-- Witness for `NewDecoder_data_offset`: data offset 12 on a 16-byte stream;
the three filler bytes are skipped. -/
theorem NewDecoder_data_offset_witness :
    ∃ dec, NewDecoder streamOffset12 = (.ok dec, [0, 0, 0, 0]) ∧
      dec.r = [0, 0, 0, 0] ∧ dec.Header.DataOffset = 12 ∧ dec.decodedOnce = false :=
  (NewDecoder_data_offset 1 0x05 0 0 0 12 [0xaa, 0xbb, 0xcc, 0, 0, 0, 0]).1 (by decide)

/-! ### Reading `Data` after `Decode` -/

theorem LimitedReader.payload_length_advance (l : LimitedReader) (k : Nat) :
    (l.advance k).payload.length = l.payload.length - k := by
  simp only [LimitedReader.payload, LimitedReader.advance, List.length_take, List.length_drop]
  omega

theorem DecodeAudioData_ok_reader (r r1 : LimitedReader) (a v : AudioData)
    (h : DecodeAudioData r a = (.ok (), r1, v)) :
    ∃ j, j ≤ r.payload.length ∧ r1 = r.advance j ∧ v.Data = some r1.N := by
  cases hp : r.payload with
  | nil =>
    have hfail := LimitedReader.CopyN_fail r 1 (by rw [hp]; decide)
    unfold DecodeAudioData at h
    rw [hfail] at h
    simp at h
  | cons b p =>
    unfold DecodeAudioData at h
    obtain ⟨hc, hp1⟩ := LimitedReader.CopyN_one r b p hp
    rw [hc] at h
    simp only at h
    split_ifs at h
    · cases hp2 : (r.advance 1).payload with
      | nil =>
        have hfail := LimitedReader.CopyN_fail (r.advance 1) 1 (by rw [hp2]; decide)
        simp [DecodeAACAudioData, hfail] at h
      | cons d1 p' =>
        rw [DecodeAACAudioData_ok (r.advance 1) {} d1 p' hp2,
          LimitedReader.advance_advance] at h
        simp only [Prod.mk.injEq, true_and] at h
        obtain ⟨rfl, rfl⟩ := h
        refine ⟨2, ?_, rfl, rfl⟩
        rw [hp1] at hp2
        rw [hp2]
        simp
    · simp only [Prod.mk.injEq, true_and] at h
      obtain ⟨rfl, rfl⟩ := h
      exact ⟨1, by simp, rfl, rfl⟩

theorem DecodeVideoData_ok_reader (r r1 : LimitedReader) (a v : VideoData)
    (h : DecodeVideoData r a = (.ok (), r1, v)) :
    ∃ j, j ≤ r.payload.length ∧ r1 = r.advance j ∧ v.Data = some r1.N := by
  cases hp : r.payload with
  | nil =>
    have hfail := LimitedReader.CopyN_fail r 1 (by rw [hp]; decide)
    unfold DecodeVideoData at h
    rw [hfail] at h
    simp at h
  | cons b p =>
    unfold DecodeVideoData at h
    obtain ⟨hc, hp1⟩ := LimitedReader.CopyN_one r b p hp
    rw [hc] at h
    simp only at h
    split_ifs at h
    · have hno := DecodeAVCVideoPacket_never_ok (r.advance 1) {}
      generalize DecodeAVCVideoPacket (r.advance 1) {} = q at hno h
      obtain ⟨res, r2, a2⟩ := q
      cases res
      · simp at hno
      · simp at h
      · simp at h
    · simp only [Prod.mk.injEq, true_and] at h
      obtain ⟨rfl, rfl⟩ := h
      exact ⟨1, by simp, rfl, rfl⟩

/-- A successful `DecodeFlvTag` on an audio or video tag leaves the stream `j`
bytes into the payload and a `Data` reader entitled to the other `L - j`. -/
theorem DecodeFlvTag_ok_audio_video {V : Type} (amf : Amf0 V) (flvTag : FlvTag V)
    (b0 b1 b2 b3 b4 b5 b6 b7 b8 b9 b10 : Byte) (rest : List Byte)
    (r1 : List Byte) (t1 : FlvTag V)
    (hav : b0.val = TagTypeAudio ∨ b0.val = TagTypeVideo)
    (h : DecodeFlvTag amf
        (b0 :: b1 :: b2 :: b3 :: b4 :: b5 :: b6 :: b7 :: b8 :: b9 :: b10 :: rest) flvTag
      = (.ok (), r1, t1)) :
    ∃ j, j ≤ be24 b1 b2 b3 ∧ j ≤ rest.length ∧ r1 = rest.drop j ∧
      t1.Data.dataLimit = some (be24 b1 b2 b3 - j) := by
  simp only [DecodeFlvTag, CopyN, List.length_cons, Nat.le_add_left, if_true,
    List.take_succ_cons, List.take_zero, List.drop_succ_cons, List.drop_zero,
    or3_eq_be24 b1 b2 b3] at h
  generalize be24 b1 b2 b3 = L at h ⊢
  have hvs : ¬ TagTypeVideo = TagTypeAudio := by decide
  rcases hav with ha | hv
  · simp only [ha, if_true] at h
    generalize hq : DecodeAudioData { R := rest, N := L } {} = q at h
    obtain ⟨res, lr1, v⟩ := q
    cases res <;> simp only [Prod.mk.injEq, reduceCtorEq, false_and, true_and] at h
    obtain ⟨j, hj, rfl, hd⟩ := DecodeAudioData_ok_reader _ _ _ _ hq
    obtain ⟨rfl, rfl⟩ := h
    simp only [LimitedReader.payload, List.length_take] at hj
    refine ⟨j, by omega, by omega, ?_, ?_⟩
    · simp only [LimitedReader.advance]
      congr 1
      omega
    · simpa [TagData.dataLimit, LimitedReader.advance] using hd
  · simp only [hv, hvs, if_true, if_false] at h
    generalize hq : DecodeVideoData { R := rest, N := L } {} = q at h
    obtain ⟨res, lr1, v⟩ := q
    cases res <;> simp only [Prod.mk.injEq, reduceCtorEq, false_and, true_and] at h
    obtain ⟨j, hj, rfl, hd⟩ := DecodeVideoData_ok_reader _ _ _ _ hq
    obtain ⟨rfl, rfl⟩ := h
    simp only [LimitedReader.payload, List.length_take] at hj
    refine ⟨j, by omega, by omega, ?_, ?_⟩
    · simp only [LimitedReader.advance]
      congr 1
      omega
    · simpa [TagData.dataLimit, LimitedReader.advance] using hd

/-- From the label `body` on: a successful pass over an audio or video tag,
followed by a full read of `Data`, leaves the stream `11 + L + 4` bytes after
the start of the prologue. -/
theorem Decode_body_then_read_data {V : Type} (amf : Amf0 V) (dec dec1 : Decoder)
    (flvTag t1 : FlvTag V) (b0 b1 b2 b3 b4 b5 b6 b7 b8 b9 b10 : Byte) (rest : List Byte)
    (hr : dec.r = b0 :: b1 :: b2 :: b3 :: b4 :: b5 :: b6 :: b7 :: b8 :: b9 :: b10 :: rest)
    (hav : b0.val = TagTypeAudio ∨ b0.val = TagTypeVideo)
    (h : Decoder.Decode.body amf dec flvTag = (.ok (), dec1, t1)) :
    (readDataToEnd t1 dec1.r).2 = rest.drop (be24 b1 b2 b3 + 4) := by
  simp only [Decoder.Decode.body, hr] at h
  generalize hq : DecodeFlvTag amf
    (b0 :: b1 :: b2 :: b3 :: b4 :: b5 :: b6 :: b7 :: b8 :: b9 :: b10 :: rest) flvTag = q at h
  obtain ⟨res, r1, t2⟩ := q
  cases res <;> simp only [Prod.mk.injEq, reduceCtorEq, false_and] at h
  obtain ⟨j, hjL, hjr, rfl, hd⟩ :=
    DecodeFlvTag_ok_audio_video amf flvTag b0 b1 b2 b3 b4 b5 b6 b7 b8 b9 b10 rest r1 t2 hav hq
  have hs := decodeTagSize_snd ⟨rest.drop j, dec.header, dec.decodedOnce⟩
  generalize Decoder.decodeTagSize ⟨rest.drop j, dec.header, dec.decodedOnce⟩ = q2 at hs h
  obtain ⟨res2, dec2⟩ := q2
  simp only at hs
  subst hs
  cases res2 <;> simp only [Prod.mk.injEq, reduceCtorEq, false_and, true_and] at h
  obtain ⟨rfl, rfl⟩ := h
  simp only [readDataToEnd, hd, List.drop_drop]
  congr 1
  omega

/-- C19: let `Decode` return successfully an audio or video tag whose prologue
`b0..b10` declares payload length `L`, on a stream holding the whole tag and
the 4-byte field after it (`pre` is empty on a decoder that has passed the
initial tag-size field, and is that 4-byte field on a first call).  When the
caller then reads the returned `Data` stream to its end, the session stream is
left `11 + L + 4` bytes after the start of the prologue: exactly that many
bytes have been consumed since the start of the tag, and the next `Decode`
starts at the next prologue. -/
theorem Decode_then_read_data {V : Type} (amf : Amf0 V) (dec dec1 : Decoder)
    (flvTag t1 : FlvTag V) (pre : List Byte)
    (b0 b1 b2 b3 b4 b5 b6 b7 b8 b9 b10 : Byte) (rest : List Byte)
    (hpre : (dec.decodedOnce = true ∧ pre = []) ∨ (dec.decodedOnce = false ∧ pre.length = 4))
    (hr : dec.r =
      pre ++ b0 :: b1 :: b2 :: b3 :: b4 :: b5 :: b6 :: b7 :: b8 :: b9 :: b10 :: rest)
    (hlen : be24 b1 b2 b3 + 4 ≤ rest.length)
    (hav : b0.val = TagTypeAudio ∨ b0.val = TagTypeVideo)
    (h : dec.Decode amf flvTag = (.ok (), dec1, t1)) :
    (readDataToEnd t1 dec1.r).2 =
      (b0 :: b1 :: b2 :: b3 :: b4 :: b5 :: b6 :: b7 :: b8 :: b9 :: b10 :: rest).drop
        (11 + be24 b1 b2 b3 + 4) ∧
    (readDataToEnd t1 dec1.r).2.length + (11 + be24 b1 b2 b3 + 4) =
      (b0 :: b1 :: b2 :: b3 :: b4 :: b5 :: b6 :: b7 :: b8 :: b9 :: b10 :: rest).length := by
  have hdrop : (b0 :: b1 :: b2 :: b3 :: b4 :: b5 :: b6 :: b7 :: b8 :: b9 :: b10 :: rest).drop
      (11 + be24 b1 b2 b3 + 4) = rest.drop (be24 b1 b2 b3 + 4) := by
    rw [Nat.add_assoc, ← List.drop_drop]
    rfl
  have hfin : (readDataToEnd t1 dec1.r).2 = rest.drop (be24 b1 b2 b3 + 4) := by
    rcases hpre with ⟨hOnce, rfl⟩ | ⟨hOnce, hp4⟩
    · simp only [Decoder.Decode, hOnce, Bool.not_true, Bool.false_eq_true, if_false] at h
      exact Decode_body_then_read_data amf dec dec1 flvTag t1 b0 b1 b2 b3 b4 b5 b6 b7 b8 b9 b10
        rest (by simpa using hr) hav h
    · match pre, hp4 with
      | [z0, z1, z2, z3], _ =>
        have hts : dec.decodeTagSize = (.ok (be32 z0 z1 z2 z3),
            ⟨b0 :: b1 :: b2 :: b3 :: b4 :: b5 :: b6 :: b7 :: b8 :: b9 :: b10 :: rest,
              dec.header, false⟩) := by
          simp [Decoder.decodeTagSize, CopyN, hr, Uint32_cons4, hOnce]
        simp only [Decoder.Decode, hOnce, Bool.not_false, if_true, hts] at h
        split_ifs at h
        · simp at h
        · exact Decode_body_then_read_data amf _ dec1 flvTag t1 b0 b1 b2 b3 b4 b5 b6 b7 b8 b9
            b10 rest rfl hav h
  rw [hfin, hdrop]
  refine ⟨rfl, ?_⟩
  simp only [List.length_drop, List.length_cons]
  omega

/-- Witness for `Decode_then_read_data`: an audio tag with declared payload
length 3; after `Decode` and a full read of `Data` the stream is at the next
prologue (`09 00`), 18 bytes after the start of the tag. -/
theorem Decode_then_read_data_witness :
    (readDataToEnd (Decoder.Decode byteAmf
        { r := streamAudio3, header := sampleHeader, decodedOnce := true } {}).2.2
      (Decoder.Decode byteAmf
        { r := streamAudio3, header := sampleHeader, decodedOnce := true } {}).2.1.r).2
      = streamAudio3.drop (11 + be24 0 0 3 + 4) ∧
    streamAudio3.drop (11 + 3 + 4) = [9, 0] :=
  ⟨(Decode_then_read_data byteAmf
      { r := streamAudio3, header := sampleHeader, decodedOnce := true }
      (Decoder.Decode byteAmf
        { r := streamAudio3, header := sampleHeader, decodedOnce := true } {}).2.1
      {}
      (Decoder.Decode byteAmf
        { r := streamAudio3, header := sampleHeader, decodedOnce := true } {}).2.2
      [] 8 0 0 3 0 0 0 0 0 0 0 [0x20, 1, 2, 0, 0, 0, 14, 9, 0]
      (Or.inl ⟨rfl, rfl⟩) rfl (by decide) (Or.inl rfl) (by decide)).1,
   by decide⟩

/-! ### The buffer pool -/

theorem PoolOp.apply_all_empty (pool : Pool) (op : PoolOp) (h : ∀ b ∈ pool, b = []) :
    ∀ b ∈ PoolOp.apply pool op, b = [] := by
  intro b hb
  cases op with
  | get choice =>
    simp only [PoolOp.apply, GetBuffer] at hb
    split at hb
    · exact h b (List.mem_of_mem_eraseIdx hb)
    · exact h b hb
  | put buffer =>
    cases buffer with
    | none => exact h b hb
    | some c =>
      simp only [PoolOp.apply, PutBuffer, List.mem_cons] at hb
      rcases hb with hb | hb
      · exact hb
      · exact h b hb
  | drop index =>
    exact h b (List.mem_of_mem_eraseIdx hb)

theorem Pool.foldl_all_empty (ops : List PoolOp) :
    ∀ pool : Pool, (∀ b ∈ pool, b = []) → ∀ b ∈ ops.foldl PoolOp.apply pool, b = [] := by
  induction ops with
  | nil => intro pool h; exact h
  | cons op ops ih =>
    intro pool h
    exact ih (PoolOp.apply pool op) (PoolOp.apply_all_empty pool op h)

theorem Pool.after_all_empty (ops : List PoolOp) : ∀ b ∈ Pool.after ops, b = [] :=
  Pool.foldl_all_empty ops [] (by simp)

/-- C18: with the pool modelled as a collection of buffers that starts empty
and grows only through `PutBuffer`, after any history of `GetBuffer`,
`PutBuffer` and dropped buffers, the buffer returned by `GetBuffer` is empty
(length 0), whether it is freshly created or reused; `PutBuffer` stores the
buffer emptied, whatever it held; and `PutBuffer(nil)` leaves the pool
unchanged. -/
theorem GetBuffer_returns_empty :
    (∀ (ops : List PoolOp) (choice : Nat), (GetBuffer (Pool.after ops) choice).1 = []) ∧
    (∀ (ops : List PoolOp) (choice : Nat), (GetBuffer (Pool.after ops) choice).1.length = 0) ∧
    (∀ (pool : Pool) (buffer : List Byte), PutBuffer pool (some buffer) = [] :: pool) ∧
    GetBuffer (Pool.after [.put (some [1, 2, 3])]) 0 = ([], []) ∧
    (∀ pool : Pool, PutBuffer pool none = pool) := by
  have hget : ∀ (ops : List PoolOp) (choice : Nat),
      (GetBuffer (Pool.after ops) choice).1 = [] := by
    intro ops choice
    unfold GetBuffer
    split
    · rename_i buffer hb
      exact Pool.after_all_empty ops buffer (List.get?_mem hb)
    · rfl
  refine ⟨hget, ?_, fun _ _ => rfl, by decide, fun _ => rfl⟩
  intro ops choice
  rw [hget]
  rfl

/-! ### Script data: the loop against the sequence of pairs -/

theorem mapGet_filter_ne {V : Type} (kv : List (String × V)) (k name : String)
    (h : k ≠ name) : mapGet (kv.filter (fun e => e.1 != k)) name = mapGet kv name := by
  induction kv with
  | nil => rfl
  | cons e rest ih =>
    obtain ⟨k1, v1⟩ := e
    by_cases hk : k1 = k
    · subst hk
      simp [List.filter, mapGet, h, ih]
    · have hb : (k1 != k) = true := by simpa using hk
      simp only [List.filter, hb, mapGet, ih]

theorem mapGet_mapSet {V : Type} (kv : List (String × V)) (k name : String) (v : V) :
    mapGet (mapSet kv k v) name = if k = name then some v else mapGet kv name := by
  unfold mapSet
  by_cases h : k = name
  · simp [mapGet, h]
  · simp only [mapGet, h, if_false]
    exact mapGet_filter_ne kv k name h

theorem mapGet_assignAll {V : Type} (pairs : List (String × V)) :
    ∀ (kv : List (String × V)) (name : String),
      mapGet (assignAll kv pairs) name =
        match lastValue pairs name with
        | some w => some w
        | none => mapGet kv name := by
  induction pairs with
  | nil => intro kv name; rfl
  | cons e rest ih =>
    intro kv name
    obtain ⟨k, v⟩ := e
    have h := ih (mapSet kv k v) name
    simp only [assignAll, List.foldl_cons] at h ⊢
    rw [h, mapGet_mapSet]
    simp only [lastValue]
    cases lastValue rest name with
    | some w => rfl
    | none =>
      simp only
      split_ifs <;> rfl

theorem keys_mapSet_nodup {V : Type} (kv : List (String × V)) (k : String) (v : V)
    (h : (kv.map Prod.fst).Nodup) : ((mapSet kv k v).map Prod.fst).Nodup := by
  unfold mapSet
  simp only [List.map_cons, List.nodup_cons]
  constructor
  · intro hmem
    simp only [List.mem_map, List.mem_filter] at hmem
    obtain ⟨e, ⟨_, hne⟩, he⟩ := hmem
    simp [he] at hne
  · exact h.sublist (List.Sublist.map _ (List.filter_sublist _))

theorem keys_assignAll_nodup {V : Type} (pairs : List (String × V)) :
    ∀ kv : List (String × V), (kv.map Prod.fst).Nodup →
      ((assignAll kv pairs).map Prod.fst).Nodup := by
  induction pairs with
  | nil => intro kv h; exact h
  | cons e rest ih =>
    intro kv h
    exact ih (mapSet kv e.1 e.2) (keys_mapSet_nodup kv e.1 e.2 h)

theorem length_mapSet_le {V : Type} (kv : List (String × V)) (k : String) (v : V) :
    (mapSet kv k v).length ≤ kv.length + 1 := by
  unfold mapSet
  simp only [List.length_cons]
  exact Nat.succ_le_succ (List.length_filter_le _ _)

theorem length_assignAll_le {V : Type} (pairs : List (String × V)) :
    ∀ kv : List (String × V), (assignAll kv pairs).length ≤ kv.length + pairs.length := by
  induction pairs with
  | nil => intro kv; exact Nat.le_refl _
  | cons e rest ih =>
    intro kv
    have h1 := ih (mapSet kv e.1 e.2)
    have h2 := length_mapSet_le kv e.1 e.2
    simp only [assignAll, List.foldl_cons, List.length_cons] at h1 ⊢
    omega

theorem mapSet_of_not_mem {V : Type} (kv : List (String × V)) (k : String) (v : V)
    (h : k ∉ kv.map Prod.fst) : mapSet kv k v = (k, v) :: kv := by
  unfold mapSet
  congr 1
  rw [List.filter_eq_self]
  intro e he
  have : e.1 ≠ k := by
    intro hek
    exact h (List.mem_map.mpr ⟨e, he, hek⟩)
  simpa using this

theorem length_assignAll_distinct {V : Type} (pairs : List (String × V)) :
    ∀ kv : List (String × V), (pairs.map Prod.fst).Nodup →
      (∀ e ∈ pairs, e.1 ∉ kv.map Prod.fst) →
      (assignAll kv pairs).length = kv.length + pairs.length := by
  induction pairs with
  | nil => intro kv _ _; rfl
  | cons e rest ih =>
    intro kv hnd hdis
    simp only [List.map_cons, List.nodup_cons] at hnd
    have hk : e.1 ∉ kv.map Prod.fst := hdis e (List.mem_cons_self _ _)
    have hset := mapSet_of_not_mem kv e.1 e.2 hk
    have h1 := ih (mapSet kv e.1 e.2) hnd.2 (by
      intro e' he'
      rw [hset]
      simp only [List.map_cons, List.mem_cons, not_or]
      constructor
      · intro heq
        exact hnd.1 (List.mem_map.mpr ⟨e', he', heq⟩)
      · exact hdis e' (List.mem_cons_of_mem _ he'))
    simp only [assignAll, List.foldl_cons, List.length_cons] at h1 ⊢
    rw [h1, hset]
    simp only [List.length_cons]
    omega

theorem loop_of_pairs {V : Type} (amf : Amf0 V) (r r' : LimitedReader)
    (pairs : List (String × V)) (hp : ScriptPairs amf r pairs r') :
    ∀ (fuel : Nat) (kv : List (String × V)), r.payload.length < fuel →
      DecodeScriptData.loop amf fuel r kv = (.ok (assignAll kv pairs), r') := by
  induction hp with
  | done r n hName =>
    intro fuel kv hf
    cases fuel with
    | zero => omega
    | succ f => simp [DecodeScriptData.loop, hName, assignAll]
  | pair r key n value m pairs r' hName hValue _ ih =>
    intro fuel kv hf
    cases fuel with
    | zero => omega
    | succ f =>
      have hprog := amf.progress _ _ _ hName
      have hlen : ((r.advance n).advance m).payload.length < f := by
        simp only [LimitedReader.payload_length_advance]
        omega
      simp only [DecodeScriptData.loop, hName, hValue]
      exact ih f (mapSet kv key value) hlen

theorem loop_of_fails {V : Type} (amf : Amf0 V) (r : LimitedReader) (e : Err)
    (hp : ScriptFails amf r e) :
    ∀ (fuel : Nat) (kv : List (String × V)), r.payload.length < fuel →
      (DecodeScriptData.loop amf fuel r kv).1 = .error e := by
  induction hp with
  | name r err n hName hErr =>
    intro fuel kv hf
    cases fuel with
    | zero => omega
    | succ f => simp [DecodeScriptData.loop, hName, hErr]
  | value r key n err m hName hValue =>
    intro fuel kv hf
    cases fuel with
    | zero => omega
    | succ f => simp [DecodeScriptData.loop, hName, hValue]
  | later r key n value m e hName hValue _ ih =>
    intro fuel kv hf
    cases fuel with
    | zero => omega
    | succ f =>
      have hprog := amf.progress _ _ _ hName
      have hlen : ((r.advance n).advance m).payload.length < f := by
        simp only [LimitedReader.payload_length_advance]
        omega
      simp only [DecodeScriptData.loop, hName, hValue]
      exact ih f (mapSet kv key value) hlen

theorem pairs_of_loop {V : Type} (amf : Amf0 V) (fuel : Nat) :
    ∀ (r r' : LimitedReader) (kv kv' : List (String × V)),
      DecodeScriptData.loop amf fuel r kv = (.ok kv', r') →
      ∃ pairs, ScriptPairs amf r pairs r' ∧ kv' = assignAll kv pairs := by
  induction fuel with
  | zero =>
    intro r r' kv kv' h
    simp [DecodeScriptData.loop] at h
  | succ f ih =>
    intro r r' kv kv' h
    unfold DecodeScriptData.loop at h
    cases hName : amf.decodeString r.payload with
    | error err n =>
      rw [hName] at h
      simp only at h
      split_ifs at h with he
      · simp only [Prod.mk.injEq, Result.ok.injEq] at h
        obtain ⟨rfl, rfl⟩ := h
        subst he
        exact ⟨[], ScriptPairs.done r n hName, rfl⟩
      · simp at h
    | item key n =>
      rw [hName] at h
      simp only at h
      cases hValue : amf.decodeValue (r.advance n).payload with
      | error err m =>
        rw [hValue] at h
        simp at h
      | item value m =>
        rw [hValue] at h
        simp only at h
        obtain ⟨pairs, hp, hkv⟩ := ih _ _ _ _ h
        exact ⟨(key, value) :: pairs,
          ScriptPairs.pair r key n value m pairs r' hName hValue hp, hkv⟩

/-- C15: with the external decoder as a function on the bounded payload that is
left, `DecodeScriptData` succeeds exactly when the payload is a sequence of
(name, value) pairs followed by ordinary end-of-stream at a name position
(`ScriptPairs`).  The `Objects` map then gives for every name the value of its
last occurrence, has one entry per name, at most as many entries as pairs,
exactly as many when the names are distinct, and is empty for zero pairs.  A
failure while decoding a value (end-of-stream included) and a failure other
than end-of-stream while decoding a name (`ScriptFails`) make
`DecodeScriptData` fail with that error wrapped, leaving `*data` as it was. -/
theorem DecodeScriptData_pairs {V : Type} (amf : Amf0 V) (r : LimitedReader)
    (data : ScriptData V) :
    ((DecodeScriptData amf r data).1 = .ok () ↔ ∃ pairs r', ScriptPairs amf r pairs r') ∧
    (∀ (pairs : List (String × V)) (r' : LimitedReader), ScriptPairs amf r pairs r' →
      DecodeScriptData amf r data = (.ok (), r', { Objects := assignAll [] pairs }) ∧
      (∀ name, mapGet (assignAll [] pairs) name = lastValue pairs name) ∧
      ((assignAll [] pairs).map Prod.fst).Nodup ∧
      (assignAll [] pairs).length ≤ pairs.length ∧
      ((pairs.map Prod.fst).Nodup → (assignAll [] pairs).length = pairs.length) ∧
      (pairs = [] → assignAll [] pairs = [])) ∧
    (∀ e : Err, ScriptFails amf r e →
      (DecodeScriptData amf r data).1 = .error e ∧ (DecodeScriptData amf r data).2.2 = data) := by
  have hok : ∀ (pairs : List (String × V)) (r' : LimitedReader), ScriptPairs amf r pairs r' →
      DecodeScriptData amf r data = (.ok (), r', { Objects := assignAll [] pairs }) := by
    intro pairs r' hp
    unfold DecodeScriptData
    rw [loop_of_pairs amf r r' pairs hp (r.payload.length + 1) [] (Nat.lt_succ_self _)]
  refine ⟨⟨?_, ?_⟩, ?_, ?_⟩
  · intro h
    unfold DecodeScriptData at h
    generalize hq : DecodeScriptData.loop amf (r.payload.length + 1) r [] = q at h
    obtain ⟨res, r1⟩ := q
    cases res with
    | ok kv =>
      obtain ⟨pairs, hp, _⟩ := pairs_of_loop amf _ _ _ _ _ hq
      exact ⟨pairs, r1, hp⟩
    | error e => simp at h
    | panic => simp at h
  · rintro ⟨pairs, r', hp⟩
    rw [hok pairs r' hp]
  · intro pairs r' hp
    refine ⟨hok pairs r' hp, ?_, ?_, ?_, ?_, ?_⟩
    · intro name
      rw [mapGet_assignAll]
      cases lastValue pairs name <;> rfl
    · exact keys_assignAll_nodup pairs [] (by simp)
    · simpa using length_assignAll_le pairs []
    · intro hnd
      simpa using length_assignAll_distinct pairs [] hnd (by simp)
    · intro hnil
      rw [hnil]
      rfl
  · intro e hf
    have hl := loop_of_fails amf r e hf (r.payload.length + 1) [] (Nat.lt_succ_self _)
    unfold DecodeScriptData
    generalize DecodeScriptData.loop amf (r.payload.length + 1) r [] = q at hl
    obtain ⟨res, r1⟩ := q
    simp only at hl
    subst hl
    exact ⟨rfl, rfl⟩

/-- Witness for `DecodeScriptData_pairs`: the pairs A = 1, B = 2, A = 3 decode
to the map with A = 3 and B = 2. -/
theorem DecodeScriptData_pairs_witness :
    DecodeScriptData byteAmf { R := payloadScript, N := 6 } {} =
      (.ok (), { R := [], N := 0 }, { Objects := [("A", 3), ("B", 2)] }) ∧
    mapGet (assignAll [] [("A", 1), ("B", 2), ("A", 3)]) "A" = some 3 :=
  have hp : ScriptPairs byteAmf { R := payloadScript, N := 6 }
      [("A", 1), ("B", 2), ("A", 3)] { R := [], N := 0 } :=
    ScriptPairs.pair _ "A" 1 1 1 _ _ rfl rfl
      (ScriptPairs.pair _ "B" 1 2 1 _ _ rfl rfl
        (ScriptPairs.pair _ "A" 1 3 1 _ _ rfl rfl
          (ScriptPairs.done { R := [], N := 0 } 0 rfl)))
  have h := (DecodeScriptData_pairs byteAmf { R := payloadScript, N := 6 } {}).2.1 _ _ hp
  ⟨h.1, by rw [h.2.1]; rfl⟩

end Flv
